import Mathlib

/-!
# The address-book example: `add_person.go`

A shallow embedding of `promptForAddress` and `main` from
`examples/add_person.go`, together with the parts of the Go standard library
they call (`bufio.Reader.ReadString`, `strings.TrimSpace`, and `fmt.Fscanf`
for the format `"%d\n"`), and of `writePerson` and `listPeople`, whose file
`examples/list_people.go` is not among the sources and which are written after
the rendering rules of the spec.

Conventions.
* A Go `string` and the contents of an `io.Reader` are lists of code points
  (`List Char`): the text is taken to be valid UTF-8, and the reader delivers
  it whole and then reports `io.EOF`.
* A Go `int32` is an `Int`; wrap-around is written out where the code converts.
* A Go function returning `(value, error)` returns a pair whose second
  component is `none` for a `nil` error.
* Text written to standard output by `fmt.Print` is a prompt and is not part
  of any returned value; it is left out.
* The library functions are embedded as their documentation and source
  describe them on such a reader. One internal limit is left out: the `fmt`
  scanner stops a scan after `1 << 30` runes, so the embedding of `Fscanf`
  speaks of inputs whose id line is shorter than that.
* The package `tutorial`, generated from the schema of the address book, is
  not among the sources. Its structs are written out with the fields the
  example uses; the values of its enum constants are a parameter.
-/

namespace AddPerson

/-! ## The Go library functions used -/

/-- The `error` values that the calls below can produce. -/
inductive Error where
  /-- The value `io.EOF`. -/
  | EOF
  /-- From `fmt`: "unexpected newline". -/
  | unexpectedNewline
  /-- From `fmt`: "expected integer". -/
  | expectedInteger
  /-- From `strconv`: `ErrSyntax`. -/
  | invalidSyntax
  /-- From `strconv`: `ErrRange`. -/
  | valueOutOfRange
  /-- From `fmt`: "integer overflow on token". -/
  | integerOverflow
  /-- From `fmt`: "newline in format does not match input". -/
  | newlineMismatch
  deriving DecidableEq, Repr

/-- The white-space table of package `fmt` (`scan.go`, `isSpace`): the code
points with the Unicode property White_Space. -/
def isSpace (r : Char) : Bool :=
  let n := r.toNat
  (0x0009 ≤ n && n ≤ 0x000d) || n == 0x0020 || n == 0x0085 || n == 0x00a0 ||
  n == 0x1680 || (0x2000 ≤ n && n ≤ 0x200a) || (0x2028 ≤ n && n ≤ 0x2029) ||
  n == 0x202f || n == 0x205f || n == 0x3000

/-- Go's `unicode.IsSpace`: the Latin-1 spaces `\t \n \v \f \r`, space, U+0085
and U+00A0, and beyond Latin-1 the table `White_Space`. -/
def IsSpace (r : Char) : Bool :=
  let n := r.toNat
  if n ≤ 0xff then
    n == 0x09 || n == 0x0a || n == 0x0b || n == 0x0c || n == 0x0d || n == 0x20 ||
    n == 0x85 || n == 0xa0
  else
    n == 0x1680 || (0x2000 ≤ n && n ≤ 0x200a) || (0x2028 ≤ n && n ≤ 0x2029) ||
    n == 0x202f || n == 0x205f || n == 0x3000

/-- Go's `strings.TrimLeftFunc`. -/
def TrimLeftFunc (s : List Char) (f : Char → Bool) : List Char :=
  s.dropWhile f

/-- Go's `strings.TrimRightFunc`. -/
def TrimRightFunc (s : List Char) (f : Char → Bool) : List Char :=
  (s.reverse.dropWhile f).reverse

/-- Go's `strings.TrimSpace`: all leading and trailing white space removed. -/
def TrimSpace (s : List Char) : List Char :=
  TrimRightFunc (TrimLeftFunc s IsSpace) IsSpace

/-- Go's `(*bufio.Reader).ReadString(delim)` on a reader whose unread content
is `rd`: the text up to and including the first `delim`, a `nil` error and the
content left; or, when `delim` does not occur, all the content and `io.EOF`. -/
def ReadString (delim : Char) : List Char → List Char × Option Error × List Char
  | [] => ([], some Error.EOF, [])
  | c :: cs =>
      if c = delim then ([c], none, cs)
      else
        let r := ReadString delim cs
        (c :: r.1, r.2.1, r.2.2)

/-- The `fmt` scanner's `peek`: is the next rune one of `ok`? (nothing is
consumed; at end of input the answer is no). -/
def peek (ok : List Char) : List Char → Bool
  | [] => false
  | r :: _ => ok.contains r

/-- The `fmt` scanner's `SkipSpace` in the mode of `Fscanf` (a newline is not a
space): blanks are consumed, a newline is an error, and the first other rune
is left unread. -/
def SkipSpace : List Char → Except Error (List Char)
  | [] => .ok []
  | r :: rest =>
      if r = '\r' ∧ peek ['\n'] rest = true then SkipSpace rest
      else if r = '\n' then .error Error.unexpectedNewline
      else if isSpace r = false then .ok (r :: rest)
      else SkipSpace rest

/-- The `fmt` scanner's `accept`: consume the next rune if it is one of `ok`.
Returns the runes added to the token buffer and the content left. -/
def accept (ok : List Char) : List Char → List Char × List Char
  | [] => ([], [])
  | r :: rest => if ok.contains r then ([r], rest) else ([], r :: rest)

/-- The loop `for s.accept(digits) {}` of `scanNumber`. -/
def acceptAll (ok : List Char) : List Char → List Char × List Char
  | [] => ([], [])
  | r :: rest =>
      if ok.contains r then
        let t := acceptAll ok rest
        (r :: t.1, t.2)
      else ([], r :: rest)

/-- The constant `sign` of `fmt/scan.go`. -/
def sign : List Char := ['+', '-']

/-- The constant `decimalDigits` of `fmt/scan.go`. -/
def decimalDigits : List Char := ['0', '1', '2', '3', '4', '5', '6', '7', '8', '9']

/-- The `fmt` scanner's `scanNumber(digits, false)`: there must be input, its
first rune must be a digit, and all digits that follow are taken. -/
def scanNumber (digits : List Char) : List Char → Except Error (List Char × List Char)
  | [] => .error Error.EOF
  | r :: rest =>
      if digits.contains r then
        let t := acceptAll digits rest
        .ok (r :: t.1, t.2)
      else .error Error.expectedInteger

/-- The value of a string of decimal digits, most significant first; `none`
when a rune is not a digit. -/
def digitsValue : Nat → List Char → Option Nat
  | acc, [] => some acc
  | acc, c :: cs =>
      if '0' ≤ c ∧ c ≤ '9' then digitsValue (acc * 10 + (c.toNat - '0'.toNat)) cs
      else none

/-- Go's `strconv.ParseInt(s, 10, 64)`. -/
def ParseInt (s : List Char) : Except Error Int :=
  match s with
  | [] => .error Error.invalidSyntax
  | c :: cs =>
      let neg := c = '-'
      let body := if c = '+' ∨ c = '-' then cs else c :: cs
      match body with
      | [] => .error Error.invalidSyntax
      | _ =>
        match digitsValue 0 body with
        | none => .error Error.invalidSyntax
        | some un =>
            if ¬ neg ∧ un ≥ 2 ^ 63 then .error Error.valueOutOfRange
            else if neg ∧ un > 2 ^ 63 then .error Error.valueOutOfRange
            else .ok (if neg then - (un : Int) else (un : Int))

/-- Conversion of an integer to a Go signed integer of `w` bits (wrap-around). -/
def toSigned (w : Nat) (z : Int) : Int :=
  (z + 2 ^ (w - 1)) % 2 ^ w - 2 ^ (w - 1)

/-- The `fmt` scanner's `scanInt('d', bitSize)`: an optional sign and decimal
digits, converted by `ParseInt`; the value must survive the round trip
`(i << (64 - n)) >> (64 - n)` on `int64`. -/
def scanInt (bitSize : Nat) (rd : List Char) : Except Error (Int × List Char) :=
  match SkipSpace rd with
  | .error e => .error e
  | .ok [] => .error Error.EOF
  | .ok rd1 =>
      let s := accept sign rd1
      match scanNumber decimalDigits s.2 with
      | .error e => .error e
      | .ok (tok, rd2) =>
          match ParseInt (s.1 ++ tok) with
          | .error e => .error e
          | .ok i =>
              let x := toSigned 64 (i * 2 ^ (64 - bitSize)) / 2 ^ (64 - bitSize)
              if x ≠ i then .error Error.integerOverflow
              else .ok (i, rd2)

/-- A blank of the `fmt` scanner: white space other than the newline. -/
def blank (c : Char) : Bool := isSpace c && c != '\n'

/-- The call `fmt.Fscanf(rd, "%d\n", &v)` with `v` an `int32` variable that
holds `v` before the call, on a buffered reader whose unread content is `rd`:
the value that the variable holds after the call, and the error or, with a
`nil` error, the content left. The verb skips leading blanks and scans the
integer, which is stored at once; the newline of the format is matched after
that, against blanks followed by a newline or by the end of the input, so an
error at that point leaves the scanned integer in the variable. An error
before it leaves the variable as it was. The reader is a `bufio.Reader`, which
can take back the rune read last, so the scan consumes no more than it
matches. -/
def Fscanf (v : Int) (rd : List Char) : Int × Except Error (List Char) :=
  match SkipSpace rd with
  | .error e => (v, .error e)
  | .ok rd1 =>
      match scanInt 32 rd1 with
      | .error e => (v, .error e)
      | .ok (i, rd2) =>
          let v := toSigned 32 i
          match rd2.dropWhile blank with
          | [] => (v, .ok [])
          | c :: rest =>
              if c = '\n' then (v, .ok rest)
              else (v, .error Error.newlineMismatch)

/-! ## The generated package `tutorial` (imported as `pb`) -/

/-- The Go type `pb.Person_PhoneType`. A proto enum is generated as a named
`int32`, and a struct field of this type that is never set holds its zero
value, `0`. The spec's data model gives the kind a fourth value `UNSPECIFIED`
as its default; the sources name three constants only and never a fourth, so
the kind is kept as the integer the Go field holds. -/
abbrev Person_PhoneType := Int

/-- The enum constants of the generated package that the example names. The
package is not among these sources, so the values of the constants are a
parameter of everything below. -/
structure Tutorial where
  /-- The Go constant `pb.Person_MOBILE`. -/
  Person_MOBILE : Person_PhoneType
  /-- The Go constant `pb.Person_HOME`. -/
  Person_HOME : Person_PhoneType
  /-- The Go constant `pb.Person_WORK`. -/
  Person_WORK : Person_PhoneType

/-- Modelled from the spec: the Go struct `pb.Person_PhoneNumber` of the
generated package, a number and a kind, under the field names the example
uses (`Type_` is the Go field `Type`). -/
structure Person_PhoneNumber where
  Number : List Char
  Type_ : Person_PhoneType
  deriving DecidableEq, Repr

/-- Modelled from the spec: the Go struct `pb.Person` of the generated
package, an integer id (an `int32`, as the example's comment says), a name, an
email and the phones in insertion order, under the field names the example
uses. -/
structure Person where
  Id : Int
  Name : List Char
  Email : List Char
  Phones : List Person_PhoneNumber
  deriving DecidableEq, Repr

/-- Modelled from the spec: the Go struct `pb.AddressBook` of the generated
package, the people in insertion order. -/
structure AddressBook where
  People : List Person
  deriving DecidableEq, Repr

/-! ## `promptForAddress` -/

/-- When `ReadString` succeeds it has consumed at least the delimiter. -/
theorem ReadString_length_lt (delim : Char) :
    ∀ (rd line rest : List Char), ReadString delim rd = (line, none, rest) →
      rest.length < rd.length
  | [], line, rest, h => by simp [ReadString] at h
  | c :: cs, line, rest, h => by
      unfold ReadString at h
      split at h
      · simp only [Prod.mk.injEq, true_and] at h
        rw [← h.2]
        exact Nat.lt_succ_self _
      · simp only [Prod.mk.injEq] at h
        have ih := ReadString_length_lt delim cs (ReadString delim cs).1 rest
          (by rw [← h.2.1, ← h.2.2])
        exact Nat.lt_succ_of_lt ih

/-- The `switch ptype` statement of `promptForAddress` (lines 72 to 81): the
phone number `pn` after it. The `default` case prints a message and leaves `pn`
as it is. -/
def switchPtype (pb : Tutorial) (ptype : List Char) (pn : Person_PhoneNumber) :
    Person_PhoneNumber :=
  if ptype = "mobile".toList then { pn with Type_ := pb.Person_MOBILE }
  else if ptype = "home".toList then { pn with Type_ := pb.Person_HOME }
  else if ptype = "work".toList then { pn with Type_ := pb.Person_WORK }
  else pn

/-- The `for` loop of `promptForAddress` (lines 45 to 86), started with the
person `p` built so far and the unread content `rd`. Every pass that does not
return consumes input, so the bound `n` on the content's length is never
exhausted. -/
def phoneLoop (pb : Tutorial) :
    (n : Nat) → (p : Person) → (rd : List Char) → rd.length < n → Person × Option Error
  | 0, _, _, h => absurd h (Nat.not_lt_zero _)
  | n + 1, p, rd, h =>
      match h1 : ReadString '\n' rd with
      | (_, some err, _) => (p, some err)
      | (phone, none, rd1) =>
          let phone := TrimSpace phone
          if phone = [] then (p, none)
          else
            let pn : Person_PhoneNumber := { Number := phone, Type_ := 0 }
            match h2 : ReadString '\n' rd1 with
            | (_, some err, _) => (p, some err)
            | (ptype, none, rd2) =>
                let ptype := TrimSpace ptype
                let pn := switchPtype pb ptype pn
                phoneLoop pb n { p with Phones := p.Phones ++ [pn] } rd2
                  (by
                    have a := ReadString_length_lt _ _ _ _ h1
                    have b := ReadString_length_lt _ _ _ _ h2
                    omega)

/-- The Go function `promptForAddress(r io.Reader) (*pb.Person, error)`, on a
reader that delivers the text `r`. -/
def promptForAddress (pb : Tutorial) (r : List Char) : Person × Option Error :=
  let p : Person := { Id := 0, Name := [], Email := [], Phones := [] }
  match Fscanf p.Id r with
  | (id, .error err) => ({ p with Id := id }, some err)
  | (id, .ok rd) =>
      let p := { p with Id := id }
      match ReadString '\n' rd with
      | (_, some err, _) => (p, some err)
      | (name, none, rd) =>
          let p := { p with Name := TrimSpace name }
          match ReadString '\n' rd with
          | (_, some err, _) => (p, some err)
          | (email, none, rd) =>
              let p := { p with Email := TrimSpace email }
              phoneLoop pb (rd.length + 1) p rd (Nat.lt_succ_self _)

/-- The input of `TestPromptForAddressReturnsAddress`. -/
def testInput : List Char :=
  ("12345\nExample Name\nname@example.com\n123-456-7890\nhome\n222-222-2222\nmobile\n" ++
   "111-111-1111\nwork\n777-777-7777\nunknown\n\n").toList

/-- A choice of the enum constants: `MOBILE` is the zero value, as the tests
of the repository require of it, and the three values differ. -/
def tutorial : Tutorial := { Person_MOBILE := 0, Person_HOME := 1, Person_WORK := 2 }

/-- The Go test `TestPromptForAddressReturnsAddress`: `true` when it reports no
failure. `proto.Equal` on two phone numbers compares their fields. -/
def TestPromptForAddressReturnsAddress (pb : Tutorial) : Bool :=
  let r := promptForAddress pb testInput
  let got := r.1
  let want : List Person_PhoneNumber :=
    [ { Number := "123-456-7890".toList, Type_ := pb.Person_HOME },
      { Number := "222-222-2222".toList, Type_ := pb.Person_MOBILE },
      { Number := "111-111-1111".toList, Type_ := pb.Person_WORK },
      { Number := "777-777-7777".toList, Type_ := pb.Person_MOBILE } ]
  r.2.isNone && got.Id == 12345 && got.Name == "Example Name".toList &&
    got.Email == "name@example.com".toList && got.Phones.length == want.length &&
    (List.zipWith (fun g w => decide (g = w)) got.Phones want).all id

/-- The first line of an input: its text up to the first newline or, when
there is none, all of it. -/
def firstLine (r : List Char) : List Char := r.takeWhile (fun c => c != '\n')

/-- The value of `&pb.Person{}`: every field at its zero value. -/
def emptyPerson : Person := { Id := 0, Name := [], Email := [], Phones := [] }

/-! ## `main` -/

/-- An error of `ioutil.ReadFile`, as `main` tells them apart with
`os.IsNotExist`. -/
inductive FileError where
  | notExist
  | other
  deriving DecidableEq, Repr

/-- What one run of `main` meets outside the program: the command line, the
file system, standard input and the protocol-buffer codec. The codec and the
file system are not part of the example; each is given by what its call
returns. -/
structure Env where
  /-- The value of `os.Args`. -/
  Args : List (List Char)
  /-- The call `ioutil.ReadFile(fname)`: the bytes and the error. -/
  ReadFile : List Char → List Nat × Option FileError
  /-- The call `proto.Unmarshal(in, book)` on an empty `book`: the book decoded,
  or no book when it returns an error. -/
  Unmarshal : List Nat → Option AddressBook
  /-- The text that `os.Stdin` delivers. -/
  Stdin : List Char
  /-- The call `proto.Marshal(book)`: the bytes, or none when it returns an
  error. -/
  Marshal : AddressBook → Option (List Nat)
  /-- The call `ioutil.WriteFile(fname, out, 0644)`: `true` when it returns a
  `nil` error. -/
  WriteFile : List Char → List Nat → Bool

/-- The way a run of `main` ends. -/
inductive Exit where
  /-- The function `main` returned. -/
  | ok
  /-- A call of `log.Fatalf` or `log.Fatalln` ended the process; the text is
  the start of its message. -/
  | fatal (msg : String)
  deriving DecidableEq, Repr

/-- A run of `main` as seen from outside: the book handed to `proto.Marshal`
and the file name and bytes handed to `ioutil.WriteFile`, for each call that
was made, and the way the run ended. -/
structure Run where
  encoded : Option AddressBook
  written : Option (List Char × List Nat)
  exit : Exit
  deriving DecidableEq, Repr

/-- The Go function `main`. -/
def main (pb : Tutorial) (env : Env) : Run :=
  match env.Args with
  | [_, fname] =>
      let rf := env.ReadFile fname
      let input := rf.1
      if rf.2 = some FileError.other then
        { encoded := none, written := none, exit := .fatal "Error reading file:" }
      else
        match env.Unmarshal input with
        | none =>
            { encoded := none, written := none, exit := .fatal "Failed to parse address book:" }
        | some book =>
            match promptForAddress pb env.Stdin with
            | (_, some _) =>
                { encoded := none, written := none, exit := .fatal "Error with address:" }
            | (addr, none) =>
                let book : AddressBook := { People := book.People ++ [addr] }
                match env.Marshal book with
                | none =>
                    { encoded := some book, written := none,
                      exit := .fatal "Failed to encode address book:" }
                | some out =>
                    if env.WriteFile fname out = true then
                      { encoded := some book, written := some (fname, out), exit := .ok }
                    else
                      { encoded := some book, written := some (fname, out),
                        exit := .fatal "Failed to write address book:" }
  | _ => { encoded := none, written := none, exit := .fatal "Usage:" }

/-! ## `writePerson` and `listPeople` (`list_people.go`)

The file `list_people.go` is not among the sources; its test is. The two
functions are written after the rendering rules of the spec. -/

/-- Modelled from the spec: the text that stands for `{id}` in the line
`Person ID: {id}` of `writePerson` (`list_people.go`, not among the sources):
the decimal digits of the integer, after a minus sign when it is negative. -/
def formatId (n : Int) : List Char :=
  match n with
  | Int.ofNat m => Nat.toDigits 10 m
  | Int.negSucc m => '-' :: Nat.toDigits 10 (m + 1)

/-- Modelled from the spec: the table from phone kinds to display labels used
by `writePerson` (`list_people.go`, not among the sources): `Mobile phone #`
for `MOBILE`, `Home phone #` for `HOME`, `Work phone #` for `WORK`, and no
label for any other kind. -/
def phoneLabel (pb : Tutorial) (kind : Person_PhoneType) : Option (List Char) :=
  if kind = pb.Person_MOBILE then some "Mobile phone #".toList
  else if kind = pb.Person_HOME then some "Home phone #".toList
  else if kind = pb.Person_WORK then some "Work phone #".toList
  else none

/-- Modelled from the spec: the lines that `writePerson` (`list_people.go`, not
among the sources) emits for one phone: the one line `  {Label}: {number}`
when the kind has a label. For a kind without a label the spec leaves open
what is shown; the parameter `other` stands for it. -/
def renderPhone (pb : Tutorial) (other : Person_PhoneNumber → List (List Char))
    (pn : Person_PhoneNumber) : List (List Char) :=
  match phoneLabel pb pn.Type_ with
  | some label => ["  ".toList ++ label ++ ": ".toList ++ pn.Number]
  | none => other pn

/-- Modelled from the spec: `renderPerson`, the lines of `writePerson`
(`list_people.go`, not among the sources) in order: always `Person ID: {id}`
and `  Name: {name}`, then `  E-mail address: {email}` if the email is not
empty, then the lines of each phone in order. -/
def renderPerson (pb : Tutorial) (other : Person_PhoneNumber → List (List Char))
    (p : Person) : List (List Char) :=
  ["Person ID: ".toList ++ formatId p.Id] ++ ["  Name: ".toList ++ p.Name] ++
    (if p.Email ≠ [] then ["  E-mail address: ".toList ++ p.Email] else []) ++
    p.Phones.flatMap (renderPhone pb other)

/-- Modelled from the spec: `renderBook`, the lines of `listPeople`
(`list_people.go`, not among the sources): those of `renderPerson` over the
people of the book, in order. -/
def renderBook (pb : Tutorial) (other : Person_PhoneNumber → List (List Char))
    (book : AddressBook) : List (List Char) :=
  book.People.flatMap (renderPerson pb other)

/-- Writing lines to a writer whose content so far is `w`: each line is
followed by one newline and by nothing else. -/
def writeLines (w : List Char) (lines : List (List Char)) : List Char :=
  lines.foldl (fun w l => w ++ l ++ ['\n']) w

/-- Modelled from the spec: the Go function `writePerson(w, p)` of
`list_people.go` (not among the sources), on a writer whose content so far is
`w`: the content after the call. -/
def writePerson (pb : Tutorial) (other : Person_PhoneNumber → List (List Char))
    (w : List Char) (p : Person) : List Char :=
  writeLines w (renderPerson pb other p)

/-- Modelled from the spec: the Go function `listPeople(w, book)` of
`list_people.go` (not among the sources), on a writer whose content so far is
`w`: the content after the call. -/
def listPeople (pb : Tutorial) (other : Person_PhoneNumber → List (List Char))
    (w : List Char) (book : AddressBook) : List Char :=
  writeLines w (renderBook pb other book)

/-- The person of the Go test `TestWritePersonWritesPerson`. -/
def testPerson (pb : Tutorial) : Person :=
  { Id := 1234, Name := "John Doe".toList, Email := "jdoe@example.com".toList,
    Phones := [{ Number := "555-4321".toList, Type_ := pb.Person_HOME }] }

/-- The Go test `TestWritePersonWritesPerson`: `true` when it reports no
failure. -/
def TestWritePersonWritesPerson (pb : Tutorial)
    (other : Person_PhoneNumber → List (List Char)) : Bool :=
  let got := writePerson pb other [] (testPerson pb)
  let want := ("Person ID: 1234\n  Name: John Doe\n  E-mail address: jdoe@example.com\n" ++
    "  Home phone #: 555-4321\n").toList
  decide (got = want)

/-- The address book of the Go test `TestListPeopleWritesList`; a field that
the test does not set holds its zero value. -/
def testBook (pb : Tutorial) : AddressBook :=
  { People :=
    [ { Id := 101, Name := "John Doe".toList, Email := "john@example.com".toList,
        Phones := [] },
      { Id := 102, Name := "Jane Doe".toList, Email := [], Phones := [] },
      { Id := 201, Name := "Jack Doe".toList, Email := "jack@example.com".toList,
        Phones := [{ Number := "555-555-5555".toList, Type_ := pb.Person_WORK }] },
      { Id := 301, Name := "Jack Buck".toList, Email := "buck@example.com".toList,
        Phones :=
          [ { Number := "555-555-0000".toList, Type_ := pb.Person_HOME },
            { Number := "555-555-0001".toList, Type_ := pb.Person_MOBILE },
            { Number := "555-555-0002".toList, Type_ := pb.Person_WORK } ] },
      { Id := 1001, Name := "Janet Doe".toList, Email := "janet@example.com".toList,
        Phones :=
          [ { Number := "555-777-0000".toList, Type_ := 0 },
            { Number := "555-777-0001".toList, Type_ := pb.Person_HOME } ] } ] }

/-- The text that `TestListPeopleWritesList` wants. -/
def testBookText : List Char :=
  ("Person ID: 101\n  Name: John Doe\n  E-mail address: john@example.com\n" ++
   "Person ID: 102\n  Name: Jane Doe\n" ++
   "Person ID: 201\n  Name: Jack Doe\n  E-mail address: jack@example.com\n" ++
   "  Work phone #: 555-555-5555\n" ++
   "Person ID: 301\n  Name: Jack Buck\n  E-mail address: buck@example.com\n" ++
   "  Home phone #: 555-555-0000\n  Mobile phone #: 555-555-0001\n" ++
   "  Work phone #: 555-555-0002\n" ++
   "Person ID: 1001\n  Name: Janet Doe\n  E-mail address: janet@example.com\n" ++
   "  Mobile phone #: 555-777-0000\n  Home phone #: 555-777-0001\n").toList

/-- The Go test `TestListPeopleWritesList`: `true` when it reports no failure.
The test splits both texts at the newlines and compares the pieces one by
one, which succeeds exactly when the texts are equal. -/
def TestListPeopleWritesList (pb : Tutorial)
    (other : Person_PhoneNumber → List (List Char)) : Bool :=
  decide (listPeople pb other [] (testBook pb) = testBookText)

/-- Go's `strings.Split(s, "\n")`, with which `TestListPeopleWritesList` cuts
an output into its lines: the pieces of `s` between its newlines. -/
def splitLines : List Char → List (List Char)
  | [] => [[]]
  | c :: cs =>
      if c = '\n' then [] :: splitLines cs
      else
        match splitLines cs with
        | [] => [[c]]
        | l :: ls => (c :: l) :: ls

/-- A person with an empty email whose name runs over two lines, the second of
which reads like an email line. -/
def fakeEmailPerson : Person :=
  { Id := 1, Name := "X\n  E-mail address: fake".toList, Email := [], Phones := [] }

/-- The text of a sequence of lines: each line followed by one newline. -/
def linesText (lines : List (List Char)) : List Char :=
  lines.flatMap (fun l => l ++ ['\n'])

/-- `IsPhoneLine pb pn l`: the line `l` is the line of the phone `pn`, with the
label of its kind: `  {Label}: {number}`. -/
def IsPhoneLine (pb : Tutorial) (pn : Person_PhoneNumber) (l : List Char) : Prop :=
  (pn.Type_ = pb.Person_MOBILE → l = "  Mobile phone #: ".toList ++ pn.Number) ∧
  (pn.Type_ = pb.Person_HOME → l = "  Home phone #: ".toList ++ pn.Number) ∧
  (pn.Type_ = pb.Person_WORK → l = "  Work phone #: ".toList ++ pn.Number)

/-! ## The shape of the input -/

/-- The number a decimal digit stands for. -/
def digitVal (c : Char) : Nat := c.toNat - '0'.toNat

/-- The number written by a string of decimal digits, most significant first. -/
def numeralValue (ds : List Char) : Nat := Nat.ofDigits 10 (ds.reverse.map digitVal)

/-- `IsNumeral l n`: the text `l` is an optional sign followed by one or more
decimal digits, and it writes the integer `n`. -/
def IsNumeral (l : List Char) (n : Int) : Prop :=
  ∃ sgn ds : List Char, l = sgn ++ ds ∧ (sgn = [] ∨ sgn = ['+'] ∨ sgn = ['-']) ∧
    ds ≠ [] ∧ (∀ c ∈ ds, c ∈ decimalDigits) ∧
    n = if sgn = ['-'] then - (numeralValue ds : Int) else (numeralValue ds : Int)

/-- `IsIdLine l n`: the line `l` (without its newline) holds the decimal
integer `n`, with nothing but blanks around it. -/
def IsIdLine (l : List Char) (n : Int) : Prop :=
  ∃ pre num post : List Char, l = pre ++ num ++ post ∧ (∀ c ∈ pre, blank c = true) ∧
    IsNumeral num n ∧ (∀ c ∈ post, blank c = true)

/-- The range of a Go `int32`. -/
def InInt32 (n : Int) : Prop := -2 ^ 31 ≤ n ∧ n < 2 ^ 31

instance instDecidableInInt32 (n : Int) : Decidable (InInt32 n) := by
  unfold InInt32; infer_instance

/-- The error `Fscanf` reports for a numeral that does not fit an `int32`. -/
def rangeError (n : Int) : Error :=
  if -2 ^ 63 ≤ n ∧ n < 2 ^ 63 then Error.integerOverflow else Error.valueOutOfRange

/-- The text of a run of phone entries, each a number line and a type line
(given without their newlines). -/
def entriesText : List (List Char × List Char) → List Char
  | [] => []
  | e :: es => e.1 ++ '\n' :: (e.2 ++ '\n' :: entriesText es)

/-- Phone entries as the loop accepts them: two lines each, the number line not
blank. -/
def WellFormedEntries (es : List (List Char × List Char)) : Prop :=
  ∀ e ∈ es, '\n' ∉ e.1 ∧ '\n' ∉ e.2 ∧ TrimSpace e.1 ≠ []

/-- A line that ends the phone section: empty once trimmed. -/
def IsBlankLine (l : List Char) : Prop := '\n' ∉ l ∧ TrimSpace l = []

/-- The kind that the `switch` statement leaves in a phone number whose `Type`
field was at its zero value before it. -/
def kindOf (pb : Tutorial) (ptype : List Char) : Person_PhoneType :=
  (switchPtype pb ptype { Number := [], Type_ := 0 }).Type_

/-- The phone the loop builds from an entry. -/
def phoneOf (pb : Tutorial) (e : List Char × List Char) : Person_PhoneNumber :=
  { Number := TrimSpace e.1, Type_ := kindOf pb (TrimSpace e.2) }

/-- A whole input: id line, name line, email line, phone entries, and whatever
follows them. -/
def inputText (idl name email : List Char) (es : List (List Char × List Char))
    (tail : List Char) : List Char :=
  idl ++ '\n' :: (name ++ '\n' :: (email ++ '\n' :: (entriesText es ++ tail)))

/-- A text with no white space at its start and none at its end. -/
def Trimmed (s : List Char) : Prop :=
  (∀ c, s.head? = some c → IsSpace c = false) ∧ (∀ c, s.getLast? = some c → IsSpace c = false)

/-- A person whose name and email carry no white space at either end and whose
phone numbers, besides, are not empty. -/
def FieldsTrimmed (p : Person) : Prop :=
  Trimmed p.Name ∧ Trimmed p.Email ∧ ∀ pn ∈ p.Phones, pn.Number ≠ [] ∧ Trimmed pn.Number

/-! ## Sample inputs -/

/-- The phone entries of the test input. -/
def testEntries : List (List Char × List Char) :=
  [ ("123-456-7890".toList, "home".toList), ("222-222-2222".toList, "mobile".toList),
    ("111-111-1111".toList, "work".toList), ("777-777-7777".toList, "unknown".toList) ]

/-- An input whose one phone entry has the type line `Mobile`. -/
def capitalMobileInput : List Char :=
  "12345\nExample Name\nname@example.com\n123-456-7890\nMobile\n\n".toList

/-- A person already in the book of the sample runs below. -/
def johnDoe : Person :=
  { Id := 101, Name := "John Doe".toList, Email := "john@example.com".toList, Phones := [] }

/-- A sample run: the file decodes to a book holding `johnDoe`, standard input
delivers `stdin`, and encoding and writing succeed (the bytes stand for the
ids of the people; the codec itself is outside the example). -/
def sampleEnv (stdin : List Char) : Env :=
  { Args := ["add_person".toList, "book.data".toList]
    ReadFile := fun _ => ([101], none)
    Unmarshal := fun _ => some { People := [johnDoe] }
    Stdin := stdin
    Marshal := fun book => some (book.People.map (fun p => p.Id.toNat))
    WriteFile := fun _ _ => true }

/-! ## Facts about the library functions -/

theorem ReadString_line (delim : Char) (rest : List Char) :
    ∀ l : List Char, delim ∉ l →
      ReadString delim (l ++ delim :: rest) = (l ++ [delim], none, rest)
  | [], _ => by simp [ReadString]
  | c :: cs, h => by
      have hc : c ≠ delim := fun e => h (by simp [e])
      have hcs : delim ∉ cs := fun e => h (by simp [e])
      simp [ReadString, hc, ReadString_line delim rest cs hcs]

theorem ReadString_eof (delim : Char) :
    ∀ l : List Char, delim ∉ l → ReadString delim l = (l, some Error.EOF, [])
  | [], _ => by simp [ReadString]
  | c :: cs, h => by
      have hc : c ≠ delim := fun e => h (by simp [e])
      have hcs : delim ∉ cs := fun e => h (by simp [e])
      simp [ReadString, hc, ReadString_eof delim cs hcs]

/-- Every content either holds a first line or ends without a delimiter. -/
theorem exists_line_or_eof (delim : Char) :
    ∀ rd : List Char, (∃ l rest, delim ∉ l ∧ rd = l ++ delim :: rest) ∨ delim ∉ rd
  | [] => Or.inr (by simp)
  | c :: cs => by
      by_cases hc : c = delim
      · exact Or.inl ⟨[], cs, by simp, by simp [hc]⟩
      · rcases exists_line_or_eof delim cs with ⟨l, rest, hl, e⟩ | h
        · refine Or.inl ⟨c :: l, rest, ?_, by simp [e]⟩
          simp only [List.mem_cons, not_or]
          exact ⟨fun e => hc e.symm, hl⟩
        · refine Or.inr ?_
          simp only [List.mem_cons, not_or]
          exact ⟨fun e => hc e.symm, h⟩

theorem ReadString_ok_inv (delim : Char) (rd line rest : List Char)
    (h : ReadString delim rd = (line, none, rest)) :
    ∃ l, delim ∉ l ∧ line = l ++ [delim] ∧ rd = l ++ delim :: rest := by
  rcases exists_line_or_eof delim rd with ⟨l, rest', hl, e⟩ | hno
  · rw [e, ReadString_line delim rest' l hl] at h
    simp only [Prod.mk.injEq, true_and] at h
    exact ⟨l, hl, h.1.symm, by rw [e, h.2]⟩
  · rw [ReadString_eof delim rd hno] at h
    simp at h

theorem ReadString_err_inv (delim : Char) (rd line rest : List Char) (e : Error)
    (h : ReadString delim rd = (line, some e, rest)) : delim ∉ rd ∧ e = Error.EOF := by
  rcases exists_line_or_eof delim rd with ⟨l, rest', hl, e'⟩ | hno
  · rw [e', ReadString_line delim rest' l hl] at h
    simp at h
  · rw [ReadString_eof delim rd hno] at h
    simp only [Prod.mk.injEq, Option.some.injEq] at h
    exact ⟨hno, h.2.1.symm⟩

theorem dropWhile_eq_nil_of_all (f : Char → Bool) :
    ∀ l : List Char, (∀ c ∈ l, f c = true) → l.dropWhile f = []
  | [], _ => rfl
  | c :: cs, h => by
      have hc : f c = true := h c (by simp)
      rw [List.dropWhile_cons_of_pos hc]
      exact dropWhile_eq_nil_of_all f cs (fun d hd => h d (by simp [hd]))

/-- Dropping a leading run from `l ++ [d]` with `d` in the run either empties
the list or only shortens `l`. -/
theorem dropWhile_append_singleton (f : Char → Bool) (d : Char) (hd : f d = true) :
    ∀ l : List Char, (l.dropWhile f = [] ∧ (l ++ [d]).dropWhile f = []) ∨
      (l.dropWhile f ≠ [] ∧ (l ++ [d]).dropWhile f = l.dropWhile f ++ [d])
  | [] => Or.inl (by simp [List.dropWhile, hd])
  | c :: cs => by
      by_cases hc : f c = true
      · simpa [List.dropWhile_cons_of_pos hc] using dropWhile_append_singleton f d hd cs
      · exact Or.inr (by simp [List.dropWhile_cons_of_neg hc])

/-- The trailing delimiter that `ReadString` leaves on a line does not survive
`TrimSpace`: trimming the line with or without it gives the same text. -/
theorem TrimSpace_append_newline (l : List Char) : TrimSpace (l ++ ['\n']) = TrimSpace l := by
  have hnl : IsSpace '\n' = true := by decide
  unfold TrimSpace TrimLeftFunc TrimRightFunc
  rcases dropWhile_append_singleton IsSpace '\n' hnl l with ⟨h1, h2⟩ | ⟨_, h2⟩
  · rw [h1, h2]
  · rw [h2, List.reverse_append, List.reverse_singleton, List.singleton_append,
      List.dropWhile_cons_of_pos hnl]

/-- `TrimSpace` takes away white space only, and only at the two ends. -/
theorem TrimSpace_decomp (s : List Char) :
    ∃ a b, s = a ++ TrimSpace s ++ b ∧ (∀ c ∈ a, IsSpace c = true) ∧
      (∀ c ∈ b, IsSpace c = true) := by
  refine ⟨s.takeWhile IsSpace, (((s.dropWhile IsSpace).reverse).takeWhile IsSpace).reverse,
    ?_, fun c hc => List.mem_takeWhile_imp hc,
    fun c hc => List.mem_takeWhile_imp (List.mem_reverse.mp hc)⟩
  unfold TrimSpace TrimLeftFunc TrimRightFunc
  rw [List.append_assoc, ← List.reverse_append, List.takeWhile_append_dropWhile,
    List.reverse_reverse, List.takeWhile_append_dropWhile]

/-- What `TrimSpace` returns does not begin with white space. -/
theorem TrimSpace_head_not_space (s : List Char) (c : Char)
    (h : (TrimSpace s).head? = some c) : IsSpace c = false := by
  have hd := List.head?_dropWhile_not IsSpace s
  have hpre : TrimSpace s <+: s.dropWhile IsSpace := by
    unfold TrimSpace TrimLeftFunc TrimRightFunc
    exact List.rdropWhile_prefix IsSpace (s.dropWhile IsSpace)
  obtain ⟨b, hb⟩ := hpre
  cases ht : TrimSpace s with
  | nil => rw [ht] at h; cases h
  | cons x xs =>
      rw [ht] at h hb
      simp only [List.head?_cons, Option.some.injEq] at h
      subst h
      rw [← hb] at hd
      simpa using hd

/-- What `TrimSpace` returns does not end with white space. -/
theorem TrimSpace_last_not_space (s : List Char) (c : Char)
    (h : (TrimSpace s).getLast? = some c) : IsSpace c = false := by
  unfold TrimSpace TrimLeftFunc TrimRightFunc at h
  rw [List.getLast?_reverse] at h
  have hd := List.head?_dropWhile_not IsSpace (s.dropWhile IsSpace).reverse
  rw [h] at hd
  exact hd

/-! ## Facts about `Fscanf` -/

theorem digit_cases (c : Char) (h : c ∈ decimalDigits) :
    c = '0' ∨ c = '1' ∨ c = '2' ∨ c = '3' ∨ c = '4' ∨ c = '5' ∨ c = '6' ∨ c = '7' ∨
      c = '8' ∨ c = '9' := by
  simpa [decimalDigits] using h

theorem digit_facts (c : Char) (h : c ∈ decimalDigits) :
    ('0' ≤ c ∧ c ≤ '9') ∧ isSpace c = false ∧ c ≠ '+' ∧ c ≠ '-' ∧ c ≠ '\n' ∧ c ≠ '\r' := by
  rcases digit_cases c h with e | e | e | e | e | e | e | e | e | e <;> subst e <;> decide

theorem blank_facts (c : Char) (h : blank c = true) :
    isSpace c = true ∧ c ≠ '\n' ∧ c ∉ decimalDigits ∧ c ≠ '+' ∧ c ≠ '-' := by
  have hs : isSpace c = true ∧ c ≠ '\n' := by simpa [blank] using h
  refine ⟨hs.1, hs.2, fun hd => ?_, fun e => ?_, fun e => ?_⟩
  · rw [(digit_facts c hd).2.1] at hs; simp at hs
  · subst e; revert h; decide
  · subst e; revert h; decide

theorem SkipSpace_cons_blank (c : Char) (rd : List Char) (h : blank c = true) :
    SkipSpace (c :: rd) = SkipSpace rd := by
  obtain ⟨hs, hn, -⟩ := blank_facts c h
  rw [SkipSpace]
  split
  · rfl
  · simp [hn, hs]

theorem SkipSpace_cons_newline (rd : List Char) :
    SkipSpace ('\n' :: rd) = .error Error.unexpectedNewline := by
  have h : ¬ ('\n' = '\r') := by decide
  simp [SkipSpace, h]

theorem SkipSpace_cons_other (c : Char) (rd : List Char) (h : isSpace c = false) :
    SkipSpace (c :: rd) = .ok (c :: rd) := by
  have h1 : c ≠ '\r' := by rintro rfl; revert h; decide
  have h2 : c ≠ '\n' := by rintro rfl; revert h; decide
  rw [SkipSpace]
  simp [h1, h2, h]

theorem SkipSpace_blanks (rd : List Char) :
    ∀ pre : List Char, (∀ c ∈ pre, blank c = true) → SkipSpace (pre ++ rd) = SkipSpace rd
  | [], _ => rfl
  | c :: cs, h => by
      rw [List.cons_append, SkipSpace_cons_blank c _ (h c (by simp))]
      exact SkipSpace_blanks rd cs (fun d hd => h d (by simp [hd]))

theorem acceptAll_digits (rd : List Char)
    (hrd : ∀ c, rd.head? = some c → c ∉ decimalDigits) :
    ∀ ds : List Char, (∀ c ∈ ds, c ∈ decimalDigits) →
      acceptAll decimalDigits (ds ++ rd) = (ds, rd)
  | [], _ => by
      cases rd with
      | nil => rfl
      | cons c cs =>
          have := hrd c rfl
          simp [acceptAll, this]
  | d :: ds, h => by
      have hd : d ∈ decimalDigits := h d (by simp)
      simp [acceptAll, hd, acceptAll_digits rd hrd ds (fun c hc => h c (by simp [hc]))]

theorem numeralValue_cons (c : Char) (cs : List Char) :
    numeralValue (c :: cs) = digitVal c * 10 ^ cs.length + numeralValue cs := by
  simp [numeralValue, Nat.ofDigits_append, Nat.ofDigits_singleton]
  ring

theorem digitsValue_digits :
    ∀ (ds : List Char) (acc : Nat), (∀ c ∈ ds, c ∈ decimalDigits) →
      digitsValue acc ds = some (acc * 10 ^ ds.length + numeralValue ds)
  | [], acc, _ => by simp [digitsValue, numeralValue]
  | c :: cs, acc, h => by
      have hc := (digit_facts c (h c (by simp))).1
      rw [digitsValue, if_pos hc, digitsValue_digits cs _ (fun d hd => h d (by simp [hd])),
        numeralValue_cons]
      simp only [digitVal, List.length_cons]
      congr 1
      ring

/-- `ParseInt` on a numeral: its value, unless that is outside `int64`. -/
theorem ParseInt_numeral (l : List Char) (n : Int) (h : IsNumeral l n) :
    ParseInt l =
      if -2 ^ 63 ≤ n ∧ n < 2 ^ 63 then .ok n else .error Error.valueOutOfRange := by
  obtain ⟨sgn, ds, rfl, hs, hne, hds, rfl⟩ := h
  have hv := digitsValue_digits ds 0 hds
  simp only [Nat.zero_mul, Nat.zero_add] at hv
  obtain ⟨d, ds', rfl⟩ := List.exists_cons_of_ne_nil hne
  rcases hs with rfl | rfl | rfl
  · obtain ⟨-, -, h1, h2, -⟩ := digit_facts d (hds d (by simp))
    simp only [ParseInt, List.nil_append, h1, h2, or_self, if_false, hv]
    generalize numeralValue (d :: ds') = v
    have e1 : ¬ (([] : List Char) = ['-']) := by simp
    simp only [e1, if_false, not_false_eq_true, true_and, false_and]
    by_cases hv' : v ≥ 2 ^ 63
    · rw [if_pos hv', if_neg (by omega)]
    · rw [if_neg hv', if_pos (by omega)]
  · have e0 : ¬ ('+' = '-') := by decide
    simp only [ParseInt, List.singleton_append, true_or, if_true, hv, e0]
    generalize numeralValue (d :: ds') = v
    have e1 : ¬ ((['+'] : List Char) = ['-']) := by decide
    simp only [e1, if_false, not_false_eq_true, true_and, false_and]
    by_cases hv' : v ≥ 2 ^ 63
    · rw [if_pos hv', if_neg (by omega)]
    · rw [if_neg hv', if_pos (by omega)]
  · simp only [ParseInt, List.singleton_append, or_true, if_true, hv]
    generalize numeralValue (d :: ds') = v
    simp only [if_true, not_true_eq_false, true_and, false_and, if_false]
    by_cases hv' : v > 2 ^ 63
    · rw [if_pos hv', if_neg (by omega)]
    · rw [if_neg hv', if_pos (by omega)]

/-- The round trip of `scanInt` through a shift keeps exactly the `int32` values. -/
theorem shift_roundtrip_iff (i : Int) (h : -2 ^ 63 ≤ i ∧ i < 2 ^ 63) :
    toSigned 64 (i * 2 ^ (64 - 32)) / 2 ^ (64 - 32) = i ↔ InInt32 i := by
  unfold toSigned InInt32
  norm_num at h ⊢
  omega

theorem toSigned_of_inInt32 (i : Int) (h : InInt32 i) : toSigned 32 i = i := by
  unfold toSigned
  unfold InInt32 at h
  norm_num at h ⊢
  omega

/-- `scanInt` on a numeral followed by something that is not a digit. -/
theorem scanInt_numeral (num rd : List Char) (n : Int) (hnum : IsNumeral num n)
    (hrd : ∀ c, rd.head? = some c → c ∉ decimalDigits) :
    scanInt 32 (num ++ rd) =
      if InInt32 n then .ok (n, rd) else .error (rangeError n) := by
  have hparse := ParseInt_numeral num n hnum
  obtain ⟨sgn, ds, rfl, hs, hne, hds, hn⟩ := hnum
  obtain ⟨d, ds', rfl⟩ := List.exists_cons_of_ne_nil hne
  obtain ⟨-, hd1, hd2, hd3, -⟩ := digit_facts d (hds d (by simp))
  have hdm : d ∈ decimalDigits := hds d (by simp)
  have hacc := acceptAll_digits rd hrd ds' (fun c hc => hds c (by simp [hc]))
  have hnumber : scanNumber decimalDigits (d :: ds' ++ rd) = .ok (d :: ds', rd) := by
    simp [scanNumber, hdm, hacc]
  have hstart : ∀ (c : Char) (x : List Char), isSpace c = false →
      scanInt 32 (c :: x) =
        match scanNumber decimalDigits (accept sign (c :: x)).2 with
        | .error e => .error e
        | .ok (tok, rd2) =>
            match ParseInt ((accept sign (c :: x)).1 ++ tok) with
            | .error e => .error e
            | .ok i =>
                if toSigned 64 (i * 2 ^ (64 - 32)) / 2 ^ (64 - 32) ≠ i then
                  .error Error.integerOverflow
                else .ok (i, rd2) := by
    intro c x hc
    simp only [scanInt, SkipSpace_cons_other c x hc]
  have hfinish :
      (match ParseInt (sgn ++ d :: ds') with
        | .error e => (.error e : Except Error (Int × List Char))
        | .ok i =>
            if toSigned 64 (i * 2 ^ (64 - 32)) / 2 ^ (64 - 32) ≠ i then
              .error Error.integerOverflow
            else .ok (i, rd)) =
        if InInt32 n then .ok (n, rd) else .error (rangeError n) := by
    rw [hparse]
    by_cases h64 : -2 ^ 63 ≤ n ∧ n < 2 ^ 63
    · have hiff := shift_roundtrip_iff n h64
      by_cases h32 : InInt32 n
      · simp only [if_pos h64, if_pos h32, ne_eq, hiff.mpr h32, not_true_eq_false, if_false]
      · have : ¬ toSigned 64 (n * 2 ^ (64 - 32)) / 2 ^ (64 - 32) = n := fun e => h32 (hiff.mp e)
        simp only [if_pos h64, if_neg h32, ne_eq, this, not_false_eq_true, if_true, rangeError]
    · have h32 : ¬ InInt32 n := by
        intro h; apply h64; unfold InInt32 at h; omega
      simp only [if_neg h64, if_neg h32, rangeError]
  rcases hs with rfl | rfl | rfl
  · have ha : accept sign (d :: ds' ++ rd) = ([], d :: ds' ++ rd) := by
      simp [accept, sign, hd2, hd3]
    rw [List.nil_append, List.cons_append, hstart d _ hd1, ← List.cons_append, ha]
    simp only [hnumber]
    exact hfinish
  · have ha : accept sign ('+' :: (d :: ds' ++ rd)) = (['+'], d :: ds' ++ rd) := by
      simp [accept, sign]
    rw [List.append_assoc, List.singleton_append, hstart '+' _ (by decide), ha]
    simp only [hnumber]
    exact hfinish
  · have ha : accept sign ('-' :: (d :: ds' ++ rd)) = (['-'], d :: ds' ++ rd) := by
      simp [accept, sign]
    rw [List.append_assoc, List.singleton_append, hstart '-' _ (by decide), ha]
    simp only [hnumber]
    exact hfinish

theorem numeral_head (num : List Char) (n : Int) (h : IsNumeral num n) :
    ∃ c cs, num = c :: cs ∧ isSpace c = false := by
  obtain ⟨sgn, ds, rfl, hs, hne, hds, -⟩ := h
  obtain ⟨d, ds', rfl⟩ := List.exists_cons_of_ne_nil hne
  rcases hs with rfl | rfl | rfl
  · exact ⟨d, ds', rfl, (digit_facts d (hds d (by simp))).2.1⟩
  · exact ⟨'+', d :: ds', rfl, by decide⟩
  · exact ⟨'-', d :: ds', rfl, by decide⟩

/-- `Fscanf` on an id line that is followed by a newline or by the end of the
input: the integer written, when it fits an `int32`. -/
theorem Fscanf_idLine (v : Int) (idl : List Char) (n : Int) (h : IsIdLine idl n) :
    (∀ rest, Fscanf v (idl ++ '\n' :: rest) =
      if InInt32 n then (n, .ok rest) else (v, .error (rangeError n))) ∧
    Fscanf v idl = if InInt32 n then (n, .ok []) else (v, .error (rangeError n)) := by
  obtain ⟨pre, num, post, rfl, hpre, hnum, hpost⟩ := h
  obtain ⟨c, cs, hc, hcs⟩ := numeral_head num n hnum
  have key : ∀ tail : List Char, (tail = [] ∨ ∃ rest, tail = '\n' :: rest) →
      Fscanf v (pre ++ num ++ post ++ tail) =
        if InInt32 n then (n, .ok tail.tail) else (v, .error (rangeError n)) := by
    intro tail htail
    have hhead : ∀ c, (post ++ tail).head? = some c → c ∉ decimalDigits := by
      intro c hc hd
      cases post with
      | nil =>
          rcases htail with rfl | ⟨rest, rfl⟩
          · simp at hc
          · simp at hc; subst hc; exact absurd rfl (digit_facts _ hd).2.2.2.2.1
      | cons b bs =>
          simp at hc; subst hc
          exact (blank_facts _ (hpost _ (by simp))).2.2.1 hd
    have hskip : SkipSpace (pre ++ num ++ post ++ tail) = .ok (num ++ (post ++ tail)) := by
      rw [List.append_assoc, List.append_assoc, SkipSpace_blanks _ pre hpre, hc,
        List.cons_append, SkipSpace_cons_other c _ hcs]
    have hdrop : (post ++ tail).dropWhile blank = tail := by
      rw [List.dropWhile_append_of_pos (fun a ha => hpost a ha)]
      rcases htail with rfl | ⟨rest, rfl⟩
      · rfl
      · exact List.dropWhile_cons_of_neg (by decide)
    rw [Fscanf, hskip]
    simp only [scanInt_numeral num (post ++ tail) n hnum hhead]
    by_cases h32 : InInt32 n
    · simp only [if_pos h32, hdrop, toSigned_of_inInt32 n h32]
      rcases htail with rfl | ⟨rest, rfl⟩
      · rfl
      · simp
    · simp only [if_neg h32]
  refine ⟨fun rest => ?_, ?_⟩
  · have := key ('\n' :: rest) (Or.inr ⟨rest, rfl⟩)
    simpa using this
  · have := key [] (Or.inl rfl)
    simpa using this

/-! ### What a successful `Fscanf` has read -/

theorem not_blank_cases (c : Char) (h : ¬ blank c = true) : c = '\n' ∨ isSpace c = false := by
  by_cases hn : c = '\n'
  · exact Or.inl hn
  · refine Or.inr ?_
    by_contra hs
    apply h
    simp [blank, hn, hs]

theorem SkipSpace_ok_inv :
    ∀ rd rd' : List Char, SkipSpace rd = .ok rd' →
      ∃ pre, rd = pre ++ rd' ∧ (∀ c ∈ pre, blank c = true)
  | [], rd', h => by
      simp only [SkipSpace, Except.ok.injEq] at h
      exact ⟨[], by simp [← h], by simp⟩
  | r :: rest, rd', h => by
      by_cases hb : blank r = true
      · rw [SkipSpace_cons_blank r rest hb] at h
        obtain ⟨pre, e, hpre⟩ := SkipSpace_ok_inv rest rd' h
        refine ⟨r :: pre, by simp [e], ?_⟩
        intro c hc
        rcases List.mem_cons.mp hc with rfl | hc
        · exact hb
        · exact hpre c hc
      · rcases not_blank_cases r hb with rfl | hs
        · rw [SkipSpace_cons_newline] at h
          cases h
        · rw [SkipSpace_cons_other r rest hs] at h
          simp only [Except.ok.injEq] at h
          exact ⟨[], by simp [← h], by simp⟩

theorem accept_sign_inv (rd s rd' : List Char) (h : accept sign rd = (s, rd')) :
    rd = s ++ rd' ∧ (s = [] ∨ s = ['+'] ∨ s = ['-']) := by
  cases rd with
  | nil =>
      simp only [accept, Prod.mk.injEq] at h
      obtain ⟨rfl, rfl⟩ := h
      exact ⟨rfl, Or.inl rfl⟩
  | cons r rest =>
      by_cases hc : sign.contains r = true
      · rw [accept, if_pos hc] at h
        simp only [Prod.mk.injEq] at h
        obtain ⟨rfl, rfl⟩ := h
        have : r = '+' ∨ r = '-' := by simpa [sign] using hc
        rcases this with rfl | rfl
        · exact ⟨rfl, Or.inr (Or.inl rfl)⟩
        · exact ⟨rfl, Or.inr (Or.inr rfl)⟩
      · rw [accept, if_neg hc] at h
        simp only [Prod.mk.injEq] at h
        obtain ⟨rfl, rfl⟩ := h
        exact ⟨rfl, Or.inl rfl⟩

theorem acceptAll_inv (ok : List Char) :
    ∀ rd t rd' : List Char, acceptAll ok rd = (t, rd') →
      rd = t ++ rd' ∧ (∀ c ∈ t, c ∈ ok) ∧ (∀ c, rd'.head? = some c → c ∉ ok)
  | [], t, rd', h => by
      simp only [acceptAll, Prod.mk.injEq] at h
      obtain ⟨rfl, rfl⟩ := h
      exact ⟨rfl, by simp, by simp⟩
  | r :: rest, t, rd', h => by
      by_cases hc : ok.contains r = true
      · rw [acceptAll, if_pos hc] at h
        simp only [Prod.mk.injEq] at h
        obtain ⟨rfl, rfl⟩ := h
        obtain ⟨e, h1, h2⟩ := acceptAll_inv ok rest _ _ rfl
        refine ⟨by rw [List.cons_append, ← e], ?_, h2⟩
        intro c hc'
        rcases List.mem_cons.mp hc' with rfl | hc'
        · simpa using hc
        · exact h1 c hc'
      · rw [acceptAll, if_neg hc] at h
        simp only [Prod.mk.injEq] at h
        obtain ⟨rfl, rfl⟩ := h
        refine ⟨rfl, by simp, ?_⟩
        intro c hc'
        simp only [List.head?_cons, Option.some.injEq] at hc'
        subst hc'
        simpa using hc

theorem scanNumber_ok_inv (rd tok rd' : List Char)
    (h : scanNumber decimalDigits rd = .ok (tok, rd')) :
    rd = tok ++ rd' ∧ tok ≠ [] ∧ (∀ c ∈ tok, c ∈ decimalDigits) ∧
      (∀ c, rd'.head? = some c → c ∉ decimalDigits) := by
  cases rd with
  | nil => simp [scanNumber] at h
  | cons r rest =>
      by_cases hc : decimalDigits.contains r = true
      · rw [scanNumber, if_pos hc] at h
        simp only [Except.ok.injEq, Prod.mk.injEq] at h
        obtain ⟨rfl, rfl⟩ := h
        obtain ⟨e, h1, h2⟩ := acceptAll_inv decimalDigits rest _ _ rfl
        refine ⟨by rw [List.cons_append, ← e], by simp, ?_, h2⟩
        intro c hc'
        rcases List.mem_cons.mp hc' with rfl | hc'
        · simpa using hc
        · exact h1 c hc'
      · rw [scanNumber, if_neg hc] at h
        cases h

theorem scanInt_ok_inv (rd rd2 : List Char) (i : Int) (h : scanInt 32 rd = .ok (i, rd2)) :
    ∃ pre num, rd = pre ++ num ++ rd2 ∧ (∀ c ∈ pre, blank c = true) ∧ IsNumeral num i ∧
      InInt32 i ∧ (∀ c, rd2.head? = some c → c ∉ decimalDigits) := by
  unfold scanInt at h
  rcases hs : SkipSpace rd with e | rd1
  · rw [hs] at h; cases h
  · rw [hs] at h
    obtain ⟨pre, e1, hpre⟩ := SkipSpace_ok_inv rd rd1 hs
    cases rd1 with
    | nil => cases h
    | cons c x =>
        simp only at h
        rcases ha : accept sign (c :: x) with ⟨s, rd1'⟩
        obtain ⟨e2, hs'⟩ := accept_sign_inv _ _ _ ha
        rw [ha] at h
        simp only at h
        rcases hn : scanNumber decimalDigits rd1' with e | ⟨tok, rd2'⟩
        · rw [hn] at h; cases h
        · rw [hn] at h
          simp only at h
          obtain ⟨e3, hne, hds, hhead⟩ := scanNumber_ok_inv _ _ _ hn
          have hnum : IsNumeral (s ++ tok)
              (if s = ['-'] then - (numeralValue tok : Int) else (numeralValue tok : Int)) :=
            ⟨s, tok, rfl, hs', hne, hds, rfl⟩
          rw [ParseInt_numeral _ _ hnum] at h
          generalize (if s = ['-'] then - (numeralValue tok : Int) else (numeralValue tok : Int))
            = v at hnum h
          by_cases h64 : -2 ^ 63 ≤ v ∧ v < 2 ^ 63
          · rw [if_pos h64] at h
            simp only at h
            by_cases hx : toSigned 64 (v * 2 ^ (64 - 32)) / 2 ^ (64 - 32) = v
            · rw [if_neg (not_not.mpr hx)] at h
              simp only [Except.ok.injEq, Prod.mk.injEq] at h
              obtain ⟨rfl, rfl⟩ := h
              exact ⟨pre, s ++ tok, by rw [e1, e2, e3]; simp, hpre, hnum,
                (shift_roundtrip_iff _ h64).mp hx, hhead⟩
            · rw [if_pos hx] at h
              cases h
          · rw [if_neg h64] at h
            cases h

/-- What a successful `Fscanf` has read: an id line holding the value it
stored, ended by a newline or by the end of the input. -/
theorem Fscanf_ok_inv (v : Int) (r rd : List Char) (n : Int)
    (h : Fscanf v r = (n, .ok rd)) :
    ∃ idl, IsIdLine idl n ∧ InInt32 n ∧ (r = idl ++ '\n' :: rd ∨ (r = idl ∧ rd = [])) := by
  unfold Fscanf at h
  rcases hs : SkipSpace r with e | rd1
  · rw [hs] at h; simp at h
  · rw [hs] at h
    simp only at h
    obtain ⟨pre1, e1, hpre1⟩ := SkipSpace_ok_inv r rd1 hs
    rcases hi : scanInt 32 rd1 with e | ⟨i, rd2⟩
    · rw [hi] at h; simp at h
    · rw [hi] at h
      simp only at h
      obtain ⟨pre2, num, e2, hpre2, hnum, h32, -⟩ := scanInt_ok_inv rd1 rd2 i hi
      have e3 := (List.takeWhile_append_dropWhile blank rd2).symm
      have hpost : ∀ c ∈ rd2.takeWhile blank, blank c = true :=
        fun c hc => List.mem_takeWhile_imp hc
      have hid : IsIdLine (pre1 ++ pre2 ++ num ++ rd2.takeWhile blank) i :=
        ⟨pre1 ++ pre2, num, rd2.takeWhile blank, rfl,
          fun c hc => (List.mem_append.mp hc).elim (hpre1 c) (hpre2 c), hnum, hpost⟩
      have er : r = (pre1 ++ pre2 ++ num ++ rd2.takeWhile blank) ++ rd2.dropWhile blank := by
        rw [e1, e2]
        simp only [List.append_assoc]
        rw [← e3]
      rw [toSigned_of_inInt32 i h32] at h
      rcases hd : rd2.dropWhile blank with _ | ⟨c, rest⟩
      · rw [hd] at h
        simp only [Prod.mk.injEq, Except.ok.injEq] at h
        obtain ⟨rfl, rfl⟩ := h
        exact ⟨_, hid, h32, Or.inr ⟨by rw [er, hd, List.append_nil], rfl⟩⟩
      · rw [hd] at h
        simp only at h
        by_cases hc : c = '\n'
        · rw [if_pos hc] at h
          simp only [Prod.mk.injEq, Except.ok.injEq] at h
          obtain ⟨rfl, rfl⟩ := h
          exact ⟨_, hid, h32, Or.inl (by rw [er, hd, hc])⟩
        · rw [if_neg hc] at h
          simp at h

/-! ## Facts about the loop -/

theorem switchPtype_zero (pb : Tutorial) (ptype num : List Char) :
    switchPtype pb ptype { Number := num, Type_ := 0 } =
      { Number := num, Type_ := kindOf pb ptype } := by
  unfold kindOf switchPtype
  split_ifs <;> rfl

theorem kindOf_mobile (pb : Tutorial) :
    kindOf pb "mobile".toList = pb.Person_MOBILE := rfl

theorem kindOf_home (pb : Tutorial) :
    kindOf pb "home".toList = pb.Person_HOME := rfl

theorem kindOf_work (pb : Tutorial) :
    kindOf pb "work".toList = pb.Person_WORK := rfl

theorem kindOf_other (pb : Tutorial) (t : List Char) (h1 : t ≠ "mobile".toList)
    (h2 : t ≠ "home".toList) (h3 : t ≠ "work".toList) : kindOf pb t = 0 := by
  unfold kindOf switchPtype
  rw [if_neg h1, if_neg h2, if_neg h3]

theorem phoneLoop_read_err (pb : Tutorial) (n : Nat) (p : Person) (rd : List Char)
    (h : rd.length < n) (l rd1 : List Char) (e : Error)
    (hr : ReadString '\n' rd = (l, some e, rd1)) :
    phoneLoop pb n p rd h = (p, some e) := by
  cases n with
  | zero => exact absurd h (Nat.not_lt_zero _)
  | succ n =>
      rw [phoneLoop]
      split
      · rename_i h1; rw [hr] at h1; simp only [Prod.mk.injEq, Option.some.injEq] at h1
        rw [h1.2.1]
      · rename_i h1; rw [hr] at h1; simp at h1

theorem phoneLoop_blank (pb : Tutorial) (n : Nat) (p : Person) (rd : List Char)
    (h : rd.length < n) (l rd1 : List Char)
    (hr : ReadString '\n' rd = (l, none, rd1)) (hl : TrimSpace l = []) :
    phoneLoop pb n p rd h = (p, none) := by
  cases n with
  | zero => exact absurd h (Nat.not_lt_zero _)
  | succ n =>
      rw [phoneLoop]
      split
      · rename_i h1; rw [hr] at h1; simp at h1
      · rename_i h1; rw [hr] at h1; simp only [Prod.mk.injEq, true_and] at h1
        obtain ⟨e1, e2⟩ := h1
        subst e1 e2
        simp [hl]

theorem phoneLoop_type_err (pb : Tutorial) (n : Nat) (p : Person) (rd : List Char)
    (h : rd.length < n) (l rd1 t rd2 : List Char) (e : Error)
    (hr : ReadString '\n' rd = (l, none, rd1)) (hl : TrimSpace l ≠ [])
    (hr2 : ReadString '\n' rd1 = (t, some e, rd2)) :
    phoneLoop pb n p rd h = (p, some e) := by
  cases n with
  | zero => exact absurd h (Nat.not_lt_zero _)
  | succ n =>
      rw [phoneLoop]
      split
      · rename_i h1; rw [hr] at h1; simp at h1
      · rename_i h1; rw [hr] at h1; simp only [Prod.mk.injEq, true_and] at h1
        obtain ⟨e1, e2⟩ := h1
        subst e1 e2
        simp only [hl, if_false]
        split
        · rename_i h2; rw [hr2] at h2; simp only [Prod.mk.injEq, Option.some.injEq] at h2
          rw [h2.2.1]
        · rename_i h2; rw [hr2] at h2; simp at h2

theorem phoneLoop_pair_succ (pb : Tutorial) (n : Nat) (p : Person) (rd : List Char)
    (h : rd.length < n + 1) (l rd1 t rd2 : List Char)
    (hr : ReadString '\n' rd = (l, none, rd1)) (hl : TrimSpace l ≠ [])
    (hr2 : ReadString '\n' rd1 = (t, none, rd2)) (h' : rd2.length < n) :
    phoneLoop pb (n + 1) p rd h =
      phoneLoop pb n
        { p with Phones := p.Phones ++ [⟨TrimSpace l, kindOf pb (TrimSpace t)⟩] } rd2 h' := by
  rw [phoneLoop]
  split
  · rename_i h1; rw [hr] at h1; simp at h1
  · rename_i h1; rw [hr] at h1; simp only [Prod.mk.injEq, true_and] at h1
    obtain ⟨e1, e2⟩ := h1
    subst e1 e2
    simp only [hl, if_false]
    split
    · rename_i h2; rw [hr2] at h2; simp at h2
    · rename_i h2; rw [hr2] at h2; simp only [Prod.mk.injEq, true_and] at h2
      obtain ⟨e1, e2⟩ := h2
      subst e1 e2
      simp only [switchPtype_zero]

/-- The bound passed to the loop does not show in its result. -/
theorem phoneLoop_bound_irrelevant (pb : Tutorial) :
    ∀ (n m : Nat) (p : Person) (rd : List Char) (h : rd.length < n) (h' : rd.length < m),
      phoneLoop pb n p rd h = phoneLoop pb m p rd h'
  | 0, _, _, _, h, _ => absurd h (Nat.not_lt_zero _)
  | _ + 1, 0, _, _, _, h' => absurd h' (Nat.not_lt_zero _)
  | n + 1, m + 1, p, rd, h, h' => by
      rcases hr : ReadString '\n' rd with ⟨l, _ | e, rd1⟩
      · by_cases hl : TrimSpace l = []
        · rw [phoneLoop_blank pb _ p rd h l rd1 hr hl, phoneLoop_blank pb _ p rd h' l rd1 hr hl]
        · rcases hr2 : ReadString '\n' rd1 with ⟨t, _ | e, rd2⟩
          · have a := ReadString_length_lt _ _ _ _ hr
            have b := ReadString_length_lt _ _ _ _ hr2
            rw [phoneLoop_pair_succ pb n p rd h l rd1 t rd2 hr hl hr2 (by omega),
              phoneLoop_pair_succ pb m p rd h' l rd1 t rd2 hr hl hr2 (by omega)]
            exact phoneLoop_bound_irrelevant pb n m _ rd2 _ _
          · rw [phoneLoop_type_err pb _ p rd h l rd1 t rd2 e hr hl hr2,
              phoneLoop_type_err pb _ p rd h' l rd1 t rd2 e hr hl hr2]
      · rw [phoneLoop_read_err pb _ p rd h l rd1 e hr, phoneLoop_read_err pb _ p rd h' l rd1 e hr]

/-- One pass of the loop over a number line and a type line. -/
theorem phoneLoop_pair (pb : Tutorial) (n m : Nat) (p : Person) (num ty rd : List Char)
    (hnum : '\n' ∉ num) (hty : '\n' ∉ ty) (hne : TrimSpace num ≠ [])
    (h : (num ++ '\n' :: (ty ++ '\n' :: rd)).length < n) (h' : rd.length < m) :
    phoneLoop pb n p (num ++ '\n' :: (ty ++ '\n' :: rd)) h =
      phoneLoop pb m
        { p with Phones := p.Phones ++ [⟨TrimSpace num, kindOf pb (TrimSpace ty)⟩] } rd h' := by
  cases n with
  | zero => exact absurd h (Nat.not_lt_zero _)
  | succ n =>
      have hr := ReadString_line '\n' (ty ++ '\n' :: rd) num hnum
      have hr2 := ReadString_line '\n' rd ty hty
      have hlen : rd.length < n := by
        simp only [List.length_append, List.length_cons] at h
        omega
      rw [phoneLoop_pair_succ pb n p _ h _ _ _ _ hr
        (by rw [TrimSpace_append_newline]; exact hne) hr2 hlen,
        TrimSpace_append_newline, TrimSpace_append_newline]
      exact phoneLoop_bound_irrelevant pb n m _ rd _ _

/-- The pass of the loop that reads a blank line returns. -/
theorem phoneLoop_end (pb : Tutorial) (n : Nat) (p : Person) (bl rd : List Char)
    (hbl : '\n' ∉ bl) (he : TrimSpace bl = [])
    (h : (bl ++ '\n' :: rd).length < n) :
    phoneLoop pb n p (bl ++ '\n' :: rd) h = (p, none) :=
  phoneLoop_blank pb n p _ h _ _ (ReadString_line '\n' rd bl hbl)
    (by rw [TrimSpace_append_newline]; exact he)

theorem phoneLoop_congr (pb : Tutorial) (n : Nat) (p : Person) (rd rd' : List Char)
    (e : rd = rd') (h : rd.length < n) (h' : rd'.length < n) :
    phoneLoop pb n p rd h = phoneLoop pb n p rd' h' := by
  subst e; rfl

/-- The loop over a run of well-formed entries appends their phones in order. -/
theorem phoneLoop_entries (pb : Tutorial) :
    ∀ (es : List (List Char × List Char)), WellFormedEntries es →
    ∀ (n m : Nat) (p : Person) (rd : List Char)
      (h : (entriesText es ++ rd).length < n) (h' : rd.length < m),
      phoneLoop pb n p (entriesText es ++ rd) h =
        phoneLoop pb m { p with Phones := p.Phones ++ es.map (phoneOf pb) } rd h'
  | [], _, n, m, p, rd, h, h' => by
      simp only [List.map_nil, List.append_nil]
      exact phoneLoop_bound_irrelevant pb n m p rd _ _
  | e :: es, hwf, n, m, p, rd, h, h' => by
      obtain ⟨h1, h2, h3⟩ := hwf e (by simp)
      have hwf' : WellFormedEntries es := fun x hx => hwf x (by simp [hx])
      have e1 : entriesText (e :: es) ++ rd =
          e.1 ++ '\n' :: (e.2 ++ '\n' :: (entriesText es ++ rd)) := by
        simp [entriesText]
      rw [phoneLoop_congr pb n p _ _ e1 h (by rw [← e1]; exact h),
        phoneLoop_pair pb n ((entriesText es ++ rd).length + 1) p e.1 e.2 _ h1 h2 h3 _
          (Nat.lt_succ_self _),
        phoneLoop_entries pb es hwf' _ m _ rd _ h']
      simp [phoneOf]

/-- The result of the loop keeps what the person already holds and only adds
phones at the end. -/
theorem phoneLoop_extends (pb : Tutorial) :
    ∀ (n : Nat) (p : Person) (rd : List Char) (h : rd.length < n),
      ∃ more, (phoneLoop pb n p rd h).1 = { p with Phones := p.Phones ++ more }
  | 0, _, _, h => absurd h (Nat.not_lt_zero _)
  | n + 1, p, rd, h => by
      rcases hr : ReadString '\n' rd with ⟨l, _ | e, rd1⟩
      · by_cases hl : TrimSpace l = []
        · rw [phoneLoop_blank pb _ p rd h l rd1 hr hl]
          exact ⟨[], by simp⟩
        · rcases hr2 : ReadString '\n' rd1 with ⟨t, _ | e, rd2⟩
          · have a := ReadString_length_lt _ _ _ _ hr
            have b := ReadString_length_lt _ _ _ _ hr2
            rw [phoneLoop_pair_succ pb n p rd h l rd1 t rd2 hr hl hr2 (by omega)]
            obtain ⟨more, hm⟩ := phoneLoop_extends pb n
              { p with Phones := p.Phones ++ [⟨TrimSpace l, kindOf pb (TrimSpace t)⟩] }
              rd2 (by omega)
            exact ⟨⟨TrimSpace l, kindOf pb (TrimSpace t)⟩ :: more, by rw [hm]; simp⟩
          · rw [phoneLoop_type_err pb _ p rd h l rd1 t rd2 e hr hl hr2]
            exact ⟨[], by simp⟩
      · rw [phoneLoop_read_err pb _ p rd h l rd1 e hr]
        exact ⟨[], by simp⟩

/-- What a loop that returned a `nil` error has read: well-formed entries and
then a blank line. -/
theorem phoneLoop_ok_inv (pb : Tutorial) :
    ∀ (n : Nat) (p : Person) (rd : List Char) (h : rd.length < n),
      (phoneLoop pb n p rd h).2 = none →
      ∃ es bl rest, WellFormedEntries es ∧ IsBlankLine bl ∧
        rd = entriesText es ++ (bl ++ '\n' :: rest)
  | 0, _, _, h, _ => absurd h (Nat.not_lt_zero _)
  | n + 1, p, rd, h, hok => by
      rcases hr : ReadString '\n' rd with ⟨l, _ | e, rd1⟩
      · obtain ⟨l0, hl0, rfl, erd⟩ := ReadString_ok_inv _ _ _ _ hr
        by_cases hl : TrimSpace (l0 ++ ['\n']) = []
        · exact ⟨[], l0, rd1, by simp [WellFormedEntries],
            ⟨hl0, by rw [← TrimSpace_append_newline]; exact hl⟩, by simp [entriesText, erd]⟩
        · rcases hr2 : ReadString '\n' rd1 with ⟨t, _ | e, rd2⟩
          · obtain ⟨t0, ht0, rfl, erd1⟩ := ReadString_ok_inv _ _ _ _ hr2
            have a := ReadString_length_lt _ _ _ _ hr
            have b := ReadString_length_lt _ _ _ _ hr2
            rw [phoneLoop_pair_succ pb n p rd h _ rd1 _ rd2 hr hl hr2 (by omega)] at hok
            obtain ⟨es, bl, rest, hes, hbl, e⟩ := phoneLoop_ok_inv pb n _ rd2 _ hok
            refine ⟨(l0, t0) :: es, bl, rest, ?_, hbl, ?_⟩
            · intro x hx
              rcases List.mem_cons.mp hx with rfl | hx
              · exact ⟨hl0, ht0, by rw [← TrimSpace_append_newline]; exact hl⟩
              · exact hes x hx
            · rw [erd, erd1, e]
              simp [entriesText]
          · rw [phoneLoop_type_err pb _ p rd h _ rd1 t rd2 e hr hl hr2] at hok
            cases hok
      · rw [phoneLoop_read_err pb _ p rd h l rd1 e hr] at hok
        cases hok

/-! ## Facts about `promptForAddress` -/

/-- `promptForAddress` when `Fscanf` returns an error: the person holds what
the scan left in `Id` and nothing else. -/
theorem promptForAddress_of_scan_error (pb : Tutorial) (r : List Char) (id : Int) (e : Error)
    (hf : Fscanf 0 r = (id, .error e)) :
    promptForAddress pb r = ({ Id := id, Name := [], Email := [], Phones := [] }, some e) := by
  unfold promptForAddress
  simp only [hf]

/-- `promptForAddress` when `Fscanf` returns a `nil` error: what follows the
call. -/
theorem promptForAddress_of_scan_ok (pb : Tutorial) (r : List Char) (id : Int)
    (rd : List Char) (hf : Fscanf 0 r = (id, .ok rd)) :
    promptForAddress pb r =
      match ReadString '\n' rd with
      | (_, some err, _) => ({ Id := id, Name := [], Email := [], Phones := [] }, some err)
      | (name, none, rd1) =>
          match ReadString '\n' rd1 with
          | (_, some err, _) =>
              ({ Id := id, Name := TrimSpace name, Email := [], Phones := [] }, some err)
          | (email, none, rd2) =>
              phoneLoop pb (rd2.length + 1)
                { Id := id, Name := TrimSpace name, Email := TrimSpace email, Phones := [] }
                rd2 (Nat.lt_succ_self _) := by
  unfold promptForAddress
  simp only [hf]

/-- After a well-formed id, name and email line, `promptForAddress` enters the
loop with these three fields set. -/
theorem promptForAddress_header (pb : Tutorial) (n : Int) (idl name email rd : List Char)
    (hid : IsIdLine idl n) (h32 : InInt32 n) (hname : '\n' ∉ name) (hemail : '\n' ∉ email) :
    promptForAddress pb (idl ++ '\n' :: (name ++ '\n' :: (email ++ '\n' :: rd))) =
      phoneLoop pb (rd.length + 1)
        { Id := n, Name := TrimSpace name, Email := TrimSpace email, Phones := [] } rd
        (Nat.lt_succ_self _) := by
  have hf : Fscanf 0 (idl ++ '\n' :: (name ++ '\n' :: (email ++ '\n' :: rd))) =
      (n, .ok (name ++ '\n' :: (email ++ '\n' :: rd))) := by
    rw [(Fscanf_idLine 0 idl n hid).1, if_pos h32]
  rw [promptForAddress_of_scan_ok pb _ n _ hf]
  simp only [ReadString_line '\n' _ name hname, ReadString_line '\n' _ email hemail,
    TrimSpace_append_newline]

/-- After the header and a run of well-formed entries, the loop goes on with
their phones recorded. -/
theorem promptForAddress_entries (pb : Tutorial) (n : Int) (idl name email : List Char)
    (es : List (List Char × List Char)) (tail : List Char)
    (hid : IsIdLine idl n) (h32 : InInt32 n) (hname : '\n' ∉ name) (hemail : '\n' ∉ email)
    (hes : WellFormedEntries es) :
    promptForAddress pb (inputText idl name email es tail) =
      phoneLoop pb (tail.length + 1)
        { Id := n, Name := TrimSpace name, Email := TrimSpace email,
          Phones := es.map (phoneOf pb) } tail (Nat.lt_succ_self _) := by
  unfold inputText
  rw [promptForAddress_header pb n idl name email _ hid h32 hname hemail,
    phoneLoop_entries pb es hes _ (tail.length + 1) _ tail _ (Nat.lt_succ_self _)]
  simp

/-- The whole result on a well-formed input. -/
theorem promptForAddress_wellFormed (pb : Tutorial) (n : Int) (idl name email : List Char)
    (es : List (List Char × List Char)) (bl rest : List Char)
    (hid : IsIdLine idl n) (h32 : InInt32 n) (hname : '\n' ∉ name) (hemail : '\n' ∉ email)
    (hes : WellFormedEntries es) (hbl : IsBlankLine bl) :
    promptForAddress pb (inputText idl name email es (bl ++ '\n' :: rest)) =
      ({ Id := n, Name := TrimSpace name, Email := TrimSpace email,
         Phones := es.map (phoneOf pb) }, none) := by
  rw [promptForAddress_entries pb n idl name email es _ hid h32 hname hemail hes]
  exact phoneLoop_end pb _ _ bl rest hbl.1 hbl.2 _

/-- The phones of any run, successful or not, begin with those of the
well-formed entries its input begins with. -/
theorem promptForAddress_phones_prefix (pb : Tutorial) (n : Int) (idl name email : List Char)
    (es : List (List Char × List Char)) (tail : List Char)
    (hid : IsIdLine idl n) (h32 : InInt32 n) (hname : '\n' ∉ name) (hemail : '\n' ∉ email)
    (hes : WellFormedEntries es) :
    ∃ more, (promptForAddress pb (inputText idl name email es tail)).1.Phones =
      es.map (phoneOf pb) ++ more := by
  rw [promptForAddress_entries pb n idl name email es _ hid h32 hname hemail hes]
  obtain ⟨more, hm⟩ := phoneLoop_extends pb (tail.length + 1)
    { Id := n, Name := TrimSpace name, Email := TrimSpace email,
      Phones := es.map (phoneOf pb) } tail (Nat.lt_succ_self _)
  exact ⟨more, by rw [hm]⟩

/-- The phone built from an entry stands at the entry's position, whatever
follows the entries and however the run ends. -/
theorem promptForAddress_phone_at (pb : Tutorial) (n : Int) (idl name email : List Char)
    (es1 : List (List Char × List Char)) (e : List Char × List Char)
    (es2 : List (List Char × List Char)) (tail : List Char)
    (hid : IsIdLine idl n) (h32 : InInt32 n) (hname : '\n' ∉ name) (hemail : '\n' ∉ email)
    (hes : WellFormedEntries (es1 ++ e :: es2)) :
    (promptForAddress pb (inputText idl name email (es1 ++ e :: es2) tail)).1.Phones[es1.length]?
      = some (phoneOf pb e) := by
  obtain ⟨more, hm⟩ := promptForAddress_phones_prefix pb n idl name email (es1 ++ e :: es2) tail
    hid h32 hname hemail hes
  rw [hm, List.map_append, List.append_assoc, List.getElem?_append_right (by simp)]
  simp

theorem promptForAddress_testInput (pb : Tutorial) :
    promptForAddress pb testInput =
      ({ Id := 12345, Name := "Example Name".toList, Email := "name@example.com".toList,
         Phones :=
          [ { Number := "123-456-7890".toList, Type_ := pb.Person_HOME },
            { Number := "222-222-2222".toList, Type_ := pb.Person_MOBILE },
            { Number := "111-111-1111".toList, Type_ := pb.Person_WORK },
            { Number := "777-777-7777".toList, Type_ := 0 } ] }, none) := by
  rfl

/-- The test passes exactly when `MOBILE` is the zero value of the enum type. -/
theorem test_passes_iff (pb : Tutorial) :
    TestPromptForAddressReturnsAddress pb = true ↔ pb.Person_MOBILE = 0 := by
  unfold TestPromptForAddressReturnsAddress
  rw [promptForAddress_testInput]
  simp
  constructor
  · intro h; exact h.symm
  · intro h; exact h.symm

theorem test_passes_tutorial : TestPromptForAddressReturnsAddress tutorial = true := by
  decide

theorem isNumeral_no_newline (l : List Char) (n : Int) (h : IsNumeral l n) : '\n' ∉ l := by
  obtain ⟨sgn, ds, rfl, hs, -, hds, -⟩ := h
  intro hm
  rcases List.mem_append.mp hm with hm | hm
  · rcases hs with rfl | rfl | rfl
    · simp at hm
    · revert hm; decide
    · revert hm; decide
  · exact (digit_facts _ (hds _ hm)).2.2.2.2.1 rfl

theorem isIdLine_no_newline (l : List Char) (n : Int) (h : IsIdLine l n) : '\n' ∉ l := by
  obtain ⟨pre, num, post, rfl, hpre, hnum, hpost⟩ := h
  intro hm
  rcases List.mem_append.mp hm with hm | hm
  · rcases List.mem_append.mp hm with hm | hm
    · exact (blank_facts _ (hpre _ hm)).2.1 rfl
    · exact isNumeral_no_newline num n hnum hm
  · exact (blank_facts _ (hpost _ hm)).2.1 rfl

theorem firstLine_append_newline (l rest : List Char) (h : '\n' ∉ l) :
    firstLine (l ++ '\n' :: rest) = l := by
  unfold firstLine
  induction l with
  | nil => simp
  | cons c cs ih =>
      have hc : c ≠ '\n' := fun e => h (by simp [e])
      have hcs : '\n' ∉ cs := fun e => h (by simp [e])
      simp [List.takeWhile_cons, hc, ih hcs]

theorem firstLine_of_no_newline (l : List Char) (h : '\n' ∉ l) : firstLine l = l := by
  unfold firstLine
  induction l with
  | nil => simp
  | cons c cs ih =>
      have hc : c ≠ '\n' := fun e => h (by simp [e])
      have hcs : '\n' ∉ cs := fun e => h (by simp [e])
      simp [List.takeWhile_cons, hc, ih hcs]

/-- When `Fscanf` succeeds, the first line of the input is an id line. -/
theorem Fscanf_ok_firstLine (v : Int) (r rd : List Char) (n : Int)
    (h : Fscanf v r = (n, .ok rd)) :
    IsIdLine (firstLine r) n ∧ InInt32 n := by
  obtain ⟨idl, hid, h32, hr | ⟨hr, -⟩⟩ := Fscanf_ok_inv v r rd n h
  · rw [hr, firstLine_append_newline idl rd (isIdLine_no_newline idl n hid)]
    exact ⟨hid, h32⟩
  · rw [hr, firstLine_of_no_newline idl (isIdLine_no_newline idl n hid)]
    exact ⟨hid, h32⟩

/-- A text on which `Fscanf` fails is not an id line holding an `int32`. -/
theorem not_idLine_of_Fscanf_error (v : Int) (l : List Char) (i : Int) (e : Error)
    (h : Fscanf v l = (i, .error e)) :
    ¬ ∃ n, IsIdLine l n ∧ InInt32 n := by
  rintro ⟨n, hid, h32⟩
  rw [(Fscanf_idLine v l n hid).2, if_pos h32] at h
  simp at h

/-! ## The claims -/

/-- C1. On every input made of an id line holding the decimal integer `n` in
the `int32` range, a name line, an email line, well-formed phone entries and a
blank line, `promptForAddress` returns a `nil` error and a person whose `Id`
is `n`, whose `Name` is the trimmed name line and whose `Email` is the trimmed
email line (which may be empty). -/
theorem promptForAddress_id_name_email (pb : Tutorial) (n : Int)
    (idl name email : List Char) (es : List (List Char × List Char)) (bl rest : List Char)
    (hid : IsIdLine idl n) (h32 : InInt32 n) (hname : '\n' ∉ name) (hemail : '\n' ∉ email)
    (hes : WellFormedEntries es) (hbl : IsBlankLine bl) :
    (promptForAddress pb (inputText idl name email es (bl ++ '\n' :: rest))).2 = none ∧
    (promptForAddress pb (inputText idl name email es (bl ++ '\n' :: rest))).1.Id = n ∧
    (promptForAddress pb (inputText idl name email es (bl ++ '\n' :: rest))).1.Name =
      TrimSpace name ∧
    (promptForAddress pb (inputText idl name email es (bl ++ '\n' :: rest))).1.Email =
      TrimSpace email := by
  rw [promptForAddress_wellFormed pb n idl name email es bl rest hid h32 hname hemail hes hbl]
  exact ⟨rfl, rfl, rfl, rfl⟩

theorem isIdLine_12345 : IsIdLine "12345".toList 12345 :=
  ⟨[], "12345".toList, [], rfl, by simp,
    ⟨[], "12345".toList, rfl, Or.inl rfl, by decide, by decide, by decide⟩, by simp⟩

theorem wellFormed_testEntries : WellFormedEntries testEntries := by
  unfold WellFormedEntries testEntries
  decide

theorem isBlankLine_nil : IsBlankLine [] := ⟨by simp, by decide⟩

theorem promptForAddress_id_name_email_witness :
    (promptForAddress tutorial testInput).2 = none ∧
    (promptForAddress tutorial testInput).1.Id = 12345 ∧
    (promptForAddress tutorial testInput).1.Name = "Example Name".toList ∧
    (promptForAddress tutorial testInput).1.Email = "name@example.com".toList :=
  promptForAddress_id_name_email tutorial 12345 "12345".toList "Example Name".toList
    "name@example.com".toList testEntries [] [] isIdLine_12345 (by decide) (by decide)
    (by decide) wellFormed_testEntries isBlankLine_nil

/-- C2. On every well-formed input whose phone section holds `k` entries with
non-blank number lines and then a blank line, the returned person has exactly
`k` phones, and their numbers are the trimmed number lines in input order. -/
theorem promptForAddress_phone_numbers (pb : Tutorial) (n : Int)
    (idl name email : List Char) (es : List (List Char × List Char)) (bl rest : List Char)
    (hid : IsIdLine idl n) (h32 : InInt32 n) (hname : '\n' ∉ name) (hemail : '\n' ∉ email)
    (hes : WellFormedEntries es) (hbl : IsBlankLine bl) :
    (promptForAddress pb (inputText idl name email es (bl ++ '\n' :: rest))).2 = none ∧
    (promptForAddress pb (inputText idl name email es (bl ++ '\n' :: rest))).1.Phones.length
      = es.length ∧
    (promptForAddress pb (inputText idl name email es (bl ++ '\n' :: rest))).1.Phones.map
      (fun pn => pn.Number) = es.map (fun e => TrimSpace e.1) := by
  rw [promptForAddress_wellFormed pb n idl name email es bl rest hid h32 hname hemail hes hbl]
  refine ⟨rfl, by simp, ?_⟩
  simp only [List.map_map]
  rfl

theorem promptForAddress_phone_numbers_witness :
    (promptForAddress tutorial testInput).2 = none ∧
    (promptForAddress tutorial testInput).1.Phones.length = 4 ∧
    (promptForAddress tutorial testInput).1.Phones.map (fun pn => pn.Number) =
      ["123-456-7890".toList, "222-222-2222".toList, "111-111-1111".toList,
        "777-777-7777".toList] :=
  promptForAddress_phone_numbers tutorial 12345 "12345".toList "Example Name".toList
    "name@example.com".toList testEntries [] [] isIdLine_12345 (by decide) (by decide)
    (by decide) wellFormed_testEntries isBlankLine_nil

/-- C3, refuted as stated. The type line `Mobile` differs from `mobile` only in
case, and the phone built from it has kind `MOBILE` all the same, for the
constants `tutorial` and for every choice of constants on which the
repository's test passes. -/
theorem capital_mobile_gives_mobile :
    TestPromptForAddressReturnsAddress tutorial = true ∧
    TrimSpace "Mobile".toList ≠ "mobile".toList ∧
    (promptForAddress tutorial capitalMobileInput).1.Phones =
      [{ Number := "123-456-7890".toList, Type_ := tutorial.Person_MOBILE }] ∧
    ∀ pb : Tutorial, TestPromptForAddressReturnsAddress pb = true →
      (promptForAddress pb capitalMobileInput).1.Phones =
        [{ Number := "123-456-7890".toList, Type_ := pb.Person_MOBILE }] := by
  refine ⟨by decide, by decide, by decide, fun pb h => ?_⟩
  have h0 : pb.Person_MOBILE = 0 := (test_passes_iff pb).mp h
  have : (promptForAddress pb capitalMobileInput).1.Phones =
      [{ Number := "123-456-7890".toList, Type_ := 0 }] := rfl
  rw [this, h0]

/-- C3, amended. For every phone entry, in a run that ends well or not, the
kind is decided by the trimmed type line alone: `mobile` gives `MOBILE`, `home`
gives `HOME`, `work` gives `WORK`, and every other text leaves the zero value.
With constants on which the test passes and that differ from one another, the
kind is `HOME` only for `home` and `WORK` only for `work`, while `MOBILE` is
also the kind of every text other than the three. -/
theorem promptForAddress_phone_kind (pb : Tutorial) (n : Int) (idl name email : List Char)
    (es1 : List (List Char × List Char)) (num ty : List Char)
    (es2 : List (List Char × List Char)) (tail : List Char)
    (hid : IsIdLine idl n) (h32 : InInt32 n) (hname : '\n' ∉ name) (hemail : '\n' ∉ email)
    (hes : WellFormedEntries (es1 ++ (num, ty) :: es2))
    (htest : TestPromptForAddressReturnsAddress pb = true)
    (hdist : pb.Person_HOME ≠ pb.Person_MOBILE ∧ pb.Person_WORK ≠ pb.Person_MOBILE ∧
      pb.Person_HOME ≠ pb.Person_WORK) :
    ∃ pn, (promptForAddress pb
        (inputText idl name email (es1 ++ (num, ty) :: es2) tail)).1.Phones[es1.length]?
        = some pn ∧
      (TrimSpace ty = "mobile".toList → pn.Type_ = pb.Person_MOBILE) ∧
      (pn.Type_ = pb.Person_HOME ↔ TrimSpace ty = "home".toList) ∧
      (pn.Type_ = pb.Person_WORK ↔ TrimSpace ty = "work".toList) ∧
      (TrimSpace ty ≠ "home".toList → TrimSpace ty ≠ "work".toList →
        pn.Type_ = pb.Person_MOBILE) := by
  refine ⟨phoneOf pb (num, ty), promptForAddress_phone_at pb n idl name email es1 (num, ty)
    es2 tail hid h32 hname hemail hes, ?_⟩
  have h0 : pb.Person_MOBILE = 0 := (test_passes_iff pb).mp htest
  obtain ⟨d1, d2, d3⟩ := hdist
  simp only [phoneOf]
  refine ⟨fun e => by rw [e, kindOf_mobile], ⟨fun hk => ?_, fun e => by rw [e, kindOf_home]⟩,
    ⟨fun hk => ?_, fun e => by rw [e, kindOf_work]⟩, fun e2 e3 => ?_⟩
  · by_contra e2
    by_cases e1 : TrimSpace ty = "mobile".toList
    · rw [e1, kindOf_mobile] at hk; exact d1 hk.symm
    · by_cases e3 : TrimSpace ty = "work".toList
      · rw [e3, kindOf_work] at hk; exact d3 hk.symm
      · rw [kindOf_other pb _ e1 e2 e3, ← h0] at hk; exact d1 hk.symm
  · by_contra e3
    by_cases e1 : TrimSpace ty = "mobile".toList
    · rw [e1, kindOf_mobile] at hk; exact d2 hk.symm
    · by_cases e2 : TrimSpace ty = "home".toList
      · rw [e2, kindOf_home] at hk; exact d3 hk
      · rw [kindOf_other pb _ e1 e2 e3, ← h0] at hk; exact d2 hk.symm
  · by_cases e1 : TrimSpace ty = "mobile".toList
    · rw [e1, kindOf_mobile]
    · rw [kindOf_other pb _ e1 e2 e3, h0]

theorem promptForAddress_phone_kind_witness :
    ∃ pn, (promptForAddress tutorial testInput).1.Phones[0]? = some pn ∧
      (TrimSpace "home".toList = "mobile".toList → pn.Type_ = tutorial.Person_MOBILE) ∧
      (pn.Type_ = tutorial.Person_HOME ↔ TrimSpace "home".toList = "home".toList) ∧
      (pn.Type_ = tutorial.Person_WORK ↔ TrimSpace "home".toList = "work".toList) ∧
      (TrimSpace "home".toList ≠ "home".toList → TrimSpace "home".toList ≠ "work".toList →
        pn.Type_ = tutorial.Person_MOBILE) :=
  promptForAddress_phone_kind tutorial 12345 "12345".toList "Example Name".toList
    "name@example.com".toList [] "123-456-7890".toList "home".toList testEntries.tail
    ['\n'] isIdLine_12345 (by decide) (by decide) (by decide) wellFormed_testEntries
    test_passes_tutorial (by decide)

/-- C4, refuted as stated. The entry `777-777-7777` / `unknown` of the test
input has a type text other than the three known ones, and the kind of its
phone is `MOBILE`, not a fourth value: for the constants `tutorial` and for
every choice of constants on which the repository's test passes. -/
theorem unknown_type_gives_mobile :
    TestPromptForAddressReturnsAddress tutorial = true ∧
    (TrimSpace "unknown".toList ≠ "mobile".toList ∧ TrimSpace "unknown".toList ≠ "home".toList ∧
      TrimSpace "unknown".toList ≠ "work".toList) ∧
    ((promptForAddress tutorial testInput).1.Phones[3]?).map (fun pn => pn.Type_) =
      some tutorial.Person_MOBILE ∧
    ∀ pb : Tutorial, TestPromptForAddressReturnsAddress pb = true →
      ((promptForAddress pb testInput).1.Phones[3]?).map (fun pn => pn.Type_) =
        some pb.Person_MOBILE := by
  refine ⟨by decide, by decide, by decide, fun pb h => ?_⟩
  rw [promptForAddress_testInput, (test_passes_iff pb).mp h]
  rfl

/-- C4, amended. For every phone entry whose trimmed type text is none of
`mobile`, `home`, `work` (the empty text included), the phone keeps the zero
value of its `Type` field, which is the default kind. With constants on which
the test passes that value is `MOBILE` itself, not a fourth one; it differs
from `HOME` and `WORK` when these differ from `MOBILE`. -/
theorem promptForAddress_unknown_kind (pb : Tutorial) (n : Int) (idl name email : List Char)
    (es1 : List (List Char × List Char)) (num ty : List Char)
    (es2 : List (List Char × List Char)) (tail : List Char)
    (hid : IsIdLine idl n) (h32 : InInt32 n) (hname : '\n' ∉ name) (hemail : '\n' ∉ email)
    (hes : WellFormedEntries (es1 ++ (num, ty) :: es2))
    (hty : TrimSpace ty ≠ "mobile".toList ∧ TrimSpace ty ≠ "home".toList ∧
      TrimSpace ty ≠ "work".toList)
    (htest : TestPromptForAddressReturnsAddress pb = true)
    (hdist : pb.Person_HOME ≠ pb.Person_MOBILE ∧ pb.Person_WORK ≠ pb.Person_MOBILE) :
    ∃ pn, (promptForAddress pb
        (inputText idl name email (es1 ++ (num, ty) :: es2) tail)).1.Phones[es1.length]?
        = some pn ∧
      pn.Type_ = 0 ∧ pn.Type_ = pb.Person_MOBILE ∧ pn.Type_ ≠ pb.Person_HOME ∧
      pn.Type_ ≠ pb.Person_WORK := by
  refine ⟨phoneOf pb (num, ty), promptForAddress_phone_at pb n idl name email es1 (num, ty)
    es2 tail hid h32 hname hemail hes, ?_⟩
  have h0 : pb.Person_MOBILE = 0 := (test_passes_iff pb).mp htest
  have hk : (phoneOf pb (num, ty)).Type_ = 0 := kindOf_other pb _ hty.1 hty.2.1 hty.2.2
  rw [hk]
  exact ⟨rfl, h0.symm, fun e => hdist.1 (by rw [h0, e]), fun e => hdist.2 (by rw [h0, e])⟩

theorem promptForAddress_unknown_kind_witness :
    ∃ pn, (promptForAddress tutorial testInput).1.Phones[3]? = some pn ∧
      pn.Type_ = 0 ∧ pn.Type_ = tutorial.Person_MOBILE ∧ pn.Type_ ≠ tutorial.Person_HOME ∧
      pn.Type_ ≠ tutorial.Person_WORK :=
  promptForAddress_unknown_kind tutorial 12345 "12345".toList "Example Name".toList
    "name@example.com".toList (testEntries.take 3) "777-777-7777".toList "unknown".toList []
    ['\n'] isIdLine_12345 (by decide) (by decide) (by decide) wellFormed_testEntries
    (by decide) test_passes_tutorial (by decide)

/-- C5. With constants on which the repository's test passes, every phone
entry whose trimmed type text is none of `mobile`, `home`, `work` yields the
very phone number that type `Person_MOBILE` would give for the same number. -/
theorem promptForAddress_unknown_equals_mobile (pb : Tutorial) (n : Int)
    (idl name email : List Char)
    (es1 : List (List Char × List Char)) (num ty : List Char)
    (es2 : List (List Char × List Char)) (tail : List Char)
    (hid : IsIdLine idl n) (h32 : InInt32 n) (hname : '\n' ∉ name) (hemail : '\n' ∉ email)
    (hes : WellFormedEntries (es1 ++ (num, ty) :: es2))
    (hty : TrimSpace ty ≠ "mobile".toList ∧ TrimSpace ty ≠ "home".toList ∧
      TrimSpace ty ≠ "work".toList)
    (htest : TestPromptForAddressReturnsAddress pb = true) :
    (promptForAddress pb
        (inputText idl name email (es1 ++ (num, ty) :: es2) tail)).1.Phones[es1.length]?
      = some { Number := TrimSpace num, Type_ := pb.Person_MOBILE } := by
  rw [promptForAddress_phone_at pb n idl name email es1 (num, ty) es2 tail hid h32 hname
    hemail hes, (test_passes_iff pb).mp htest]
  simp only [phoneOf, kindOf_other pb _ hty.1 hty.2.1 hty.2.2]

theorem promptForAddress_unknown_equals_mobile_witness :
    (promptForAddress tutorial testInput).1.Phones[3]? =
      some { Number := "777-777-7777".toList, Type_ := tutorial.Person_MOBILE } :=
  promptForAddress_unknown_equals_mobile tutorial 12345 "12345".toList "Example Name".toList
    "name@example.com".toList (testEntries.take 3) "777-777-7777".toList "unknown".toList []
    ['\n'] isIdLine_12345 (by decide) (by decide) (by decide) wellFormed_testEntries
    (by decide) test_passes_tutorial

/-- C6. `promptForAddress` returns a `nil` error exactly on the inputs that
begin with an id line holding an `int32`, a name line, an email line, zero or
more pairs of a non-blank number line and a type line, and a blank line, every
line ended by a newline (what follows the blank line is not read). On every
other input, and so on every input that ends before that blank line has been
read, the error is not `nil`. -/
theorem promptForAddress_ok_iff (pb : Tutorial) (r : List Char) :
    (promptForAddress pb r).2 = none ↔
      ∃ (n : Int) (idl name email : List Char) (es : List (List Char × List Char))
        (bl rest : List Char),
        IsIdLine idl n ∧ InInt32 n ∧ '\n' ∉ name ∧ '\n' ∉ email ∧ WellFormedEntries es ∧
          IsBlankLine bl ∧ r = inputText idl name email es (bl ++ '\n' :: rest) := by
  constructor
  · intro hok
    rcases hf : Fscanf 0 r with ⟨n, e | rd⟩
    · rw [promptForAddress_of_scan_error pb r n e hf] at hok; cases hok
    · rw [promptForAddress_of_scan_ok pb r n rd hf] at hok
      obtain ⟨idl, hid, h32, hr⟩ := Fscanf_ok_inv 0 r rd n hf
      rcases h1 : ReadString '\n' rd with ⟨l1, _ | e, rd1⟩
      · rw [h1] at hok
        simp only at hok
        obtain ⟨name, hname, rfl, e1⟩ := ReadString_ok_inv _ _ _ _ h1
        rcases h2 : ReadString '\n' rd1 with ⟨l2, _ | e, rd2⟩
        · rw [h2] at hok
          simp only at hok
          obtain ⟨email, hemail, rfl, e2⟩ := ReadString_ok_inv _ _ _ _ h2
          obtain ⟨es, bl, rest, hes, hbl, e3⟩ := phoneLoop_ok_inv pb _ _ rd2 _ hok
          refine ⟨n, idl, name, email, es, bl, rest, hid, h32, hname, hemail, hes, hbl, ?_⟩
          rcases hr with hr | ⟨-, hr⟩
          · rw [hr, e1, e2, e3, inputText]
          · rw [hr] at e1
            exact absurd e1 (by simp)
        · rw [h2] at hok; cases hok
      · rw [h1] at hok; cases hok
  · rintro ⟨n, idl, name, email, es, bl, rest, hid, h32, hname, hemail, hes, hbl, rfl⟩
    rw [promptForAddress_wellFormed pb n idl name email es bl rest hid h32 hname hemail hes hbl]

/-- What `Fscanf` leaves in the variable when it returns an error: the value
it held before, or, when the error is that of the newline after the integer,
the integer scanned at the start of the input. -/
theorem Fscanf_error_value (v : Int) (r : List Char) (id : Int) (e : Error)
    (h : Fscanf v r = (id, .error e)) :
    id = v ∨ ∃ pre num rest, r = pre ++ num ++ rest ∧ (∀ c ∈ pre, blank c = true) ∧
      IsNumeral num id ∧ InInt32 id := by
  unfold Fscanf at h
  rcases hs : SkipSpace r with e' | rd1
  · rw [hs] at h
    simp only [Prod.mk.injEq] at h
    exact Or.inl h.1.symm
  · rw [hs] at h
    simp only at h
    obtain ⟨pre1, e1, hpre1⟩ := SkipSpace_ok_inv r rd1 hs
    rcases hi : scanInt 32 rd1 with e' | ⟨i, rd2⟩
    · rw [hi] at h
      simp only [Prod.mk.injEq] at h
      exact Or.inl h.1.symm
    · rw [hi] at h
      simp only at h
      obtain ⟨pre2, num, e2, hpre2, hnum, h32, -⟩ := scanInt_ok_inv rd1 rd2 i hi
      rw [toSigned_of_inInt32 i h32] at h
      have hid : id = i := by
        rcases hd : rd2.dropWhile blank with _ | ⟨c, rest⟩
        · rw [hd] at h
          simp at h
        · rw [hd] at h
          simp only at h
          by_cases hc : c = '\n'
          · rw [if_pos hc] at h
            simp at h
          · rw [if_neg hc] at h
            simp only [Prod.mk.injEq] at h
            exact h.1.symm
      subst hid
      exact Or.inr ⟨pre1 ++ pre2, num, rd2, by rw [e1, e2]; simp,
        fun c hc => (List.mem_append.mp hc).elim (hpre1 c) (hpre2 c), hnum, h32⟩

/-- C7. On every input whose first line is not an id line holding an `int32`
(an empty line, text that is not a number, digits followed by other
characters), `promptForAddress` returns an error before it reads the name: the
person it returns has an empty name, an empty email and no phones. Its `Id` is
`0`, or, when the input begins with blanks and an integer in the `int32` range
that something other than a newline follows, that integer, which `Fscanf` has
stored by then. -/
theorem promptForAddress_bad_id (pb : Tutorial) (r : List Char)
    (h : ¬ ∃ n, IsIdLine (firstLine r) n ∧ InInt32 n) :
    ∃ e id, promptForAddress pb r =
        ({ Id := id, Name := [], Email := [], Phones := [] }, some e) ∧
      (id = 0 ∨ ∃ pre num rest, r = pre ++ num ++ rest ∧ (∀ c ∈ pre, blank c = true) ∧
        IsNumeral num id ∧ InInt32 id) := by
  rcases hf : Fscanf 0 r with ⟨id, e | rd⟩
  · exact ⟨e, id, promptForAddress_of_scan_error pb r id e hf, Fscanf_error_value 0 r id e hf⟩
  · exact absurd ⟨id, Fscanf_ok_firstLine 0 r rd id hf⟩ h

theorem promptForAddress_bad_id_witness :
    promptForAddress tutorial "\nExample Name\nname@example.com\n\n".toList =
      ({ Id := 0, Name := [], Email := [], Phones := [] }, some Error.unexpectedNewline) ∧
    promptForAddress tutorial "abc\nExample Name\nname@example.com\n\n".toList =
      ({ Id := 0, Name := [], Email := [], Phones := [] }, some Error.expectedInteger) ∧
    promptForAddress tutorial "12abc\nExample Name\nname@example.com\n\n".toList =
      ({ Id := 12, Name := [], Email := [], Phones := [] }, some Error.newlineMismatch) ∧
    (∃ e id, promptForAddress tutorial "\nExample Name\nname@example.com\n\n".toList =
        ({ Id := id, Name := [], Email := [], Phones := [] }, some e) ∧
      (id = 0 ∨ ∃ pre num rest,
        "\nExample Name\nname@example.com\n\n".toList = pre ++ num ++ rest ∧
        (∀ c ∈ pre, blank c = true) ∧ IsNumeral num id ∧ InInt32 id)) ∧
    (∃ e id, promptForAddress tutorial "abc\nExample Name\nname@example.com\n\n".toList =
        ({ Id := id, Name := [], Email := [], Phones := [] }, some e) ∧
      (id = 0 ∨ ∃ pre num rest,
        "abc\nExample Name\nname@example.com\n\n".toList = pre ++ num ++ rest ∧
        (∀ c ∈ pre, blank c = true) ∧ IsNumeral num id ∧ InInt32 id)) ∧
    (∃ e id, promptForAddress tutorial "12abc\nExample Name\nname@example.com\n\n".toList =
        ({ Id := id, Name := [], Email := [], Phones := [] }, some e) ∧
      (id = 0 ∨ ∃ pre num rest,
        "12abc\nExample Name\nname@example.com\n\n".toList = pre ++ num ++ rest ∧
        (∀ c ∈ pre, blank c = true) ∧ IsNumeral num id ∧ InInt32 id)) :=
  ⟨by decide, by decide, by decide,
    promptForAddress_bad_id tutorial _
      (not_idLine_of_Fscanf_error 0 [] 0 Error.EOF rfl),
    promptForAddress_bad_id tutorial _
      (not_idLine_of_Fscanf_error 0 "abc".toList 0 Error.expectedInteger rfl),
    promptForAddress_bad_id tutorial _
      (not_idLine_of_Fscanf_error 0 "12abc".toList 12 Error.newlineMismatch rfl)⟩

/-- Replacing the entry at one position changes the list at no other position. -/
theorem getElem?_replace_other (es1 es2 : List Person_PhoneNumber) (a b : Person_PhoneNumber)
    (j : Nat) (hj : j ≠ es1.length) :
    (es1 ++ a :: es2)[j]? = (es1 ++ b :: es2)[j]? := by
  rcases Nat.lt_or_gt_of_ne hj with h | h
  · rw [List.getElem?_append_left h, List.getElem?_append_left h]
  · rw [List.getElem?_append_right (Nat.le_of_lt h), List.getElem?_append_right (Nat.le_of_lt h)]
    obtain ⟨k, hk⟩ : ∃ k, j - es1.length = k + 1 := ⟨j - es1.length - 1, by omega⟩
    rw [hk]
    rfl

/-- C8. On a successful input, replacing the type line of one phone entry by
any other line (a blank one included) leaves the run successful and leaves the
id, the name, the email, the number of phones, every phone's number and the
phone at every other position as they were. -/
theorem promptForAddress_type_line_frame (pb : Tutorial) (n : Int)
    (idl name email : List Char)
    (es1 : List (List Char × List Char)) (num ty ty' : List Char)
    (es2 : List (List Char × List Char)) (bl rest : List Char)
    (hid : IsIdLine idl n) (h32 : InInt32 n) (hname : '\n' ∉ name) (hemail : '\n' ∉ email)
    (hes : WellFormedEntries (es1 ++ (num, ty) :: es2)) (hbl : IsBlankLine bl)
    (hty' : '\n' ∉ ty') :
    (promptForAddress pb
      (inputText idl name email (es1 ++ (num, ty) :: es2) (bl ++ '\n' :: rest))).2 = none ∧
    (promptForAddress pb
      (inputText idl name email (es1 ++ (num, ty') :: es2) (bl ++ '\n' :: rest))).2 = none ∧
    (promptForAddress pb
      (inputText idl name email (es1 ++ (num, ty') :: es2) (bl ++ '\n' :: rest))).1.Id =
      (promptForAddress pb
        (inputText idl name email (es1 ++ (num, ty) :: es2) (bl ++ '\n' :: rest))).1.Id ∧
    (promptForAddress pb
      (inputText idl name email (es1 ++ (num, ty') :: es2) (bl ++ '\n' :: rest))).1.Name =
      (promptForAddress pb
        (inputText idl name email (es1 ++ (num, ty) :: es2) (bl ++ '\n' :: rest))).1.Name ∧
    (promptForAddress pb
      (inputText idl name email (es1 ++ (num, ty') :: es2) (bl ++ '\n' :: rest))).1.Email =
      (promptForAddress pb
        (inputText idl name email (es1 ++ (num, ty) :: es2) (bl ++ '\n' :: rest))).1.Email ∧
    (promptForAddress pb
      (inputText idl name email (es1 ++ (num, ty') :: es2)
        (bl ++ '\n' :: rest))).1.Phones.length =
      (promptForAddress pb
        (inputText idl name email (es1 ++ (num, ty) :: es2)
          (bl ++ '\n' :: rest))).1.Phones.length ∧
    (promptForAddress pb
      (inputText idl name email (es1 ++ (num, ty') :: es2)
        (bl ++ '\n' :: rest))).1.Phones.map (fun pn => pn.Number) =
      (promptForAddress pb
        (inputText idl name email (es1 ++ (num, ty) :: es2)
          (bl ++ '\n' :: rest))).1.Phones.map (fun pn => pn.Number) ∧
    ∀ j, j ≠ es1.length →
      (promptForAddress pb
        (inputText idl name email (es1 ++ (num, ty') :: es2)
          (bl ++ '\n' :: rest))).1.Phones[j]? =
      (promptForAddress pb
        (inputText idl name email (es1 ++ (num, ty) :: es2)
          (bl ++ '\n' :: rest))).1.Phones[j]? := by
  have hes' : WellFormedEntries (es1 ++ (num, ty') :: es2) := by
    intro x hx
    rcases List.mem_append.mp hx with hx | hx
    · exact hes x (List.mem_append.mpr (Or.inl hx))
    · rcases List.mem_cons.mp hx with rfl | hx
      · exact ⟨(hes (num, ty) (by simp)).1, hty', (hes (num, ty) (by simp)).2.2⟩
      · exact hes x (List.mem_append.mpr (Or.inr (List.mem_cons_of_mem _ hx)))
  rw [promptForAddress_wellFormed pb n idl name email _ bl rest hid h32 hname hemail hes hbl,
    promptForAddress_wellFormed pb n idl name email _ bl rest hid h32 hname hemail hes' hbl]
  refine ⟨rfl, rfl, rfl, rfl, rfl, by simp, by simp [phoneOf], fun j hj => ?_⟩
  simp only [List.map_append, List.map_cons]
  exact getElem?_replace_other _ _ _ _ j (by simpa using hj)

theorem promptForAddress_type_line_frame_witness :
    (promptForAddress tutorial testInput).2 = none ∧
    (promptForAddress tutorial
      ("12345\nExample Name\nname@example.com\n123-456-7890\n\n222-222-2222\nmobile\n" ++
        "111-111-1111\nwork\n777-777-7777\nunknown\n\n").toList).2 = none ∧
    (promptForAddress tutorial
      ("12345\nExample Name\nname@example.com\n123-456-7890\n\n222-222-2222\nmobile\n" ++
        "111-111-1111\nwork\n777-777-7777\nunknown\n\n").toList).1.Phones.length =
      (promptForAddress tutorial testInput).1.Phones.length :=
  have h := promptForAddress_type_line_frame tutorial 12345 "12345".toList
    "Example Name".toList "name@example.com".toList [] "123-456-7890".toList "home".toList []
    testEntries.tail [] [] isIdLine_12345 (by decide) (by decide) (by decide)
    wellFormed_testEntries isBlankLine_nil (by decide)
  ⟨h.1, h.2.1, h.2.2.2.2.2.1⟩

/-- C9. On every run of `main` that ends without a fatal error, the book
handed to the encoder holds the people of the decoded book, unchanged and in
their order, followed by the one person that `promptForAddress` returned, and
the bytes written to the file are the encoding of that book. -/
theorem main_appends_one (pb : Tutorial) (env : Env) (h : (main pb env).exit = Exit.ok) :
    ∃ prog fname book addr out,
      env.Args = [prog, fname] ∧
      env.Unmarshal (env.ReadFile fname).1 = some book ∧
      promptForAddress pb env.Stdin = (addr, none) ∧
      (main pb env).encoded = some { People := book.People ++ [addr] } ∧
      env.Marshal { People := book.People ++ [addr] } = some out ∧
      (main pb env).written = some (fname, out) := by
  rcases hargs : env.Args with _ | ⟨prog, _ | ⟨fname, _ | ⟨x, xs⟩⟩⟩
  · simp [main, hargs] at h
  · simp [main, hargs] at h
  · by_cases hrf : (env.ReadFile fname).2 = some FileError.other
    · simp [main, hargs, hrf] at h
    · rcases hbook : env.Unmarshal (env.ReadFile fname).1 with _ | book
      · simp [main, hargs, hrf, hbook] at h
      · rcases haddr : promptForAddress pb env.Stdin with ⟨addr, _ | e⟩
        · rcases hout : env.Marshal { People := book.People ++ [addr] } with _ | out
          · simp [main, hargs, hrf, hbook, haddr, hout] at h
          · by_cases hw : env.WriteFile fname out = true
            · exact ⟨prog, fname, book, addr, out, rfl, hbook, rfl,
                by simp [main, hargs, hrf, hbook, haddr, hout, hw], hout,
                by simp [main, hargs, hrf, hbook, haddr, hout, hw]⟩
            · simp [main, hargs, hrf, hbook, haddr, hout, hw] at h
        · simp [main, hargs, hrf, hbook, haddr] at h
  · simp [main, hargs] at h

theorem main_appends_one_witness :
    (main tutorial (sampleEnv testInput)).exit = Exit.ok ∧
    (main tutorial (sampleEnv testInput)).encoded =
      some { People := [johnDoe, (promptForAddress tutorial testInput).1] } ∧
    ∃ prog fname book addr out,
      (sampleEnv testInput).Args = [prog, fname] ∧
      (sampleEnv testInput).Unmarshal ((sampleEnv testInput).ReadFile fname).1 = some book ∧
      promptForAddress tutorial (sampleEnv testInput).Stdin = (addr, none) ∧
      (main tutorial (sampleEnv testInput)).encoded = some { People := book.People ++ [addr] } ∧
      (sampleEnv testInput).Marshal { People := book.People ++ [addr] } = some out ∧
      (main tutorial (sampleEnv testInput)).written = some (fname, out) :=
  ⟨by decide, by decide, main_appends_one tutorial (sampleEnv testInput) (by decide)⟩

/-- C10. When decoding the file fails, or when `promptForAddress` returns an
error, the run of `main` ends in a fatal error before `proto.Marshal` and
`ioutil.WriteFile` are called: no book with the new person is built for
encoding and nothing is written to the file. -/
theorem main_aborts_before_write (pb : Tutorial) (env : Env)
    (h : (∀ prog fname, env.Args = [prog, fname] →
            env.Unmarshal (env.ReadFile fname).1 = none) ∨
         (promptForAddress pb env.Stdin).2 ≠ none) :
    (main pb env).encoded = none ∧ (main pb env).written = none ∧
      (main pb env).exit ≠ Exit.ok := by
  rcases hargs : env.Args with _ | ⟨prog, _ | ⟨fname, _ | ⟨x, xs⟩⟩⟩
  · simp [main, hargs]
  · simp [main, hargs]
  · by_cases hrf : (env.ReadFile fname).2 = some FileError.other
    · simp [main, hargs, hrf]
    · rcases hbook : env.Unmarshal (env.ReadFile fname).1 with _ | book
      · simp [main, hargs, hrf, hbook]
      · rcases haddr : promptForAddress pb env.Stdin with ⟨addr, _ | e⟩
        · rcases h with h | h
          · rw [h prog fname hargs] at hbook
            cases hbook
          · rw [haddr] at h
            exact absurd rfl h
        · simp [main, hargs, hrf, hbook, haddr]
  · simp [main, hargs]

theorem main_aborts_before_write_witness :
    (promptForAddress tutorial "12345\nExample Name\n".toList).2 ≠ none ∧
    (main tutorial (sampleEnv "12345\nExample Name\n".toList)).encoded = none ∧
    (main tutorial (sampleEnv "12345\nExample Name\n".toList)).written = none ∧
    (main tutorial (sampleEnv "12345\nExample Name\n".toList)).exit ≠ Exit.ok :=
  ⟨by decide,
    main_aborts_before_write tutorial (sampleEnv "12345\nExample Name\n".toList)
      (Or.inr (by decide))⟩

/-! ## Later claims about `promptForAddress` -/

theorem trimmed_nil : Trimmed [] := ⟨by simp, by simp⟩

theorem trimmed_TrimSpace (s : List Char) : Trimmed (TrimSpace s) :=
  ⟨TrimSpace_head_not_space s, TrimSpace_last_not_space s⟩

theorem fieldsTrimmed_append (p : Person) (pn : Person_PhoneNumber) (hp : FieldsTrimmed p)
    (hne : pn.Number ≠ []) (ht : Trimmed pn.Number) :
    FieldsTrimmed { p with Phones := p.Phones ++ [pn] } := by
  refine ⟨hp.1, hp.2.1, fun x hx => ?_⟩
  rcases List.mem_append.mp hx with hx | hx
  · exact hp.2.2 x hx
  · rw [List.mem_singleton.mp hx]
    exact ⟨hne, ht⟩

/-- The loop keeps the fields trimmed: every phone it adds has a trimmed number
that is not empty, and it touches nothing else. -/
theorem phoneLoop_fieldsTrimmed (pb : Tutorial) :
    ∀ (n : Nat) (p : Person) (rd : List Char) (h : rd.length < n),
      FieldsTrimmed p → FieldsTrimmed (phoneLoop pb n p rd h).1
  | 0, _, _, h, _ => absurd h (Nat.not_lt_zero _)
  | n + 1, p, rd, h, hp => by
      rcases hr : ReadString '\n' rd with ⟨l, _ | e, rd1⟩
      · by_cases hl : TrimSpace l = []
        · rw [phoneLoop_blank pb _ p rd h l rd1 hr hl]
          exact hp
        · rcases hr2 : ReadString '\n' rd1 with ⟨t, _ | e, rd2⟩
          · have a := ReadString_length_lt _ _ _ _ hr
            have b := ReadString_length_lt _ _ _ _ hr2
            rw [phoneLoop_pair_succ pb n p rd h l rd1 t rd2 hr hl hr2 (by omega)]
            exact phoneLoop_fieldsTrimmed pb n _ rd2 _
              (fieldsTrimmed_append p _ hp hl (trimmed_TrimSpace l))
          · rw [phoneLoop_type_err pb _ p rd h l rd1 t rd2 e hr hl hr2]
            exact hp
      · rw [phoneLoop_read_err pb _ p rd h l rd1 e hr]
        exact hp

/-- C15. On every input, whether `promptForAddress` returns an error or not,
the name and the email of the person returned have no white space at their
start or end, and every phone of that person has a number that is not empty
and has no white space at its start or end. -/
theorem promptForAddress_fields_trimmed (pb : Tutorial) (r : List Char) :
    Trimmed (promptForAddress pb r).1.Name ∧ Trimmed (promptForAddress pb r).1.Email ∧
      ∀ pn ∈ (promptForAddress pb r).1.Phones, pn.Number ≠ [] ∧ Trimmed pn.Number := by
  have h0 : ∀ id : Int, FieldsTrimmed
      { Id := id, Name := [], Email := [], Phones := [] } :=
    fun id => ⟨trimmed_nil, trimmed_nil, by simp⟩
  show FieldsTrimmed (promptForAddress pb r).1
  rcases hf : Fscanf 0 r with ⟨n, e | rd⟩
  · rw [promptForAddress_of_scan_error pb r n e hf]
    exact h0 n
  · rw [promptForAddress_of_scan_ok pb r n rd hf]
    rcases h1 : ReadString '\n' rd with ⟨l1, _ | e, rd1⟩
    · simp only
      rcases h2 : ReadString '\n' rd1 with ⟨l2, _ | e, rd2⟩
      · simp only
        exact phoneLoop_fieldsTrimmed pb _ _ rd2 _
          ⟨trimmed_TrimSpace l1, trimmed_TrimSpace l2, by simp⟩
      · exact ⟨trimmed_TrimSpace l1, trimmed_nil, by simp⟩
    · exact h0 n

/-- An input on which `promptForAddress` returns a `nil` error begins with a
well-formed header, well-formed entries and a blank line. -/
theorem promptForAddress_ok_decomp (pb : Tutorial) (r : List Char)
    (hok : (promptForAddress pb r).2 = none) :
    ∃ (n : Int) (idl name email : List Char) (es : List (List Char × List Char))
      (bl rest : List Char),
      IsIdLine idl n ∧ InInt32 n ∧ '\n' ∉ name ∧ '\n' ∉ email ∧ WellFormedEntries es ∧
        IsBlankLine bl ∧ r = inputText idl name email es (bl ++ '\n' :: rest) := by
  rcases hf : Fscanf 0 r with ⟨n, e | rd⟩
  · rw [promptForAddress_of_scan_error pb r n e hf] at hok; cases hok
  · rw [promptForAddress_of_scan_ok pb r n rd hf] at hok
    obtain ⟨idl, hid, h32, hr⟩ := Fscanf_ok_inv 0 r rd n hf
    rcases h1 : ReadString '\n' rd with ⟨l1, _ | e, rd1⟩
    · rw [h1] at hok
      simp only at hok
      obtain ⟨name, hname, rfl, e1⟩ := ReadString_ok_inv _ _ _ _ h1
      rcases h2 : ReadString '\n' rd1 with ⟨l2, _ | e, rd2⟩
      · rw [h2] at hok
        simp only at hok
        obtain ⟨email, hemail, rfl, e2⟩ := ReadString_ok_inv _ _ _ _ h2
        obtain ⟨es, bl, rest, hes, hbl, e3⟩ := phoneLoop_ok_inv pb _ _ rd2 _ hok
        refine ⟨n, idl, name, email, es, bl, rest, hid, h32, hname, hemail, hes, hbl, ?_⟩
        rcases hr with hr | ⟨-, hr⟩
        · rw [hr, e1, e2, e3, inputText]
        · rw [hr] at e1
          exact absurd e1 (by simp)
      · rw [h2] at hok; cases hok
    · rw [h1] at hok; cases hok

theorem inputText_append (idl name email : List Char) (es : List (List Char × List Char))
    (tail t : List Char) :
    inputText idl name email es tail ++ t = inputText idl name email es (tail ++ t) := by
  simp [inputText]

/-- C16. What follows the blank line that ends the phone section is not read:
when `promptForAddress` returns a `nil` error on `s`, it returns a `nil` error
and the same person on `s` followed by any text `t`. -/
theorem promptForAddress_append (pb : Tutorial) (s t : List Char)
    (hok : (promptForAddress pb s).2 = none) :
    promptForAddress pb (s ++ t) = promptForAddress pb s ∧
      (promptForAddress pb (s ++ t)).2 = none := by
  obtain ⟨n, idl, name, email, es, bl, rest, hid, h32, hname, hemail, hes, hbl, rfl⟩ :=
    promptForAddress_ok_decomp pb s hok
  have e : inputText idl name email es (bl ++ '\n' :: rest) ++ t =
      inputText idl name email es (bl ++ '\n' :: (rest ++ t)) := by
    rw [inputText_append]
    simp
  rw [e, promptForAddress_wellFormed pb n idl name email es bl (rest ++ t) hid h32 hname hemail
    hes hbl, promptForAddress_wellFormed pb n idl name email es bl rest hid h32 hname hemail
    hes hbl]
  exact ⟨rfl, rfl⟩

theorem promptForAddress_append_witness :
    promptForAddress tutorial (testInput ++ "555-0000\nhome\n".toList) =
      promptForAddress tutorial testInput ∧
    (promptForAddress tutorial (testInput ++ "555-0000\nhome\n".toList)).2 = none :=
  promptForAddress_append tutorial testInput "555-0000\nhome\n".toList (by decide)

/-- C17. The id is never wrapped or cut short. When the first line holds a
decimal integer outside the `int32` range, `promptForAddress` returns an error
(and the zero-valued person). When it returns a `nil` error, the first line
holds a decimal integer, that integer is in the `int32` range, and the `Id`
returned is the value of every numeral the first line can be read as. -/
theorem promptForAddress_id_exact (pb : Tutorial) (r : List Char) :
    (∀ n, IsIdLine (firstLine r) n → ¬ InInt32 n →
      ∃ e, promptForAddress pb r = (emptyPerson, some e)) ∧
    ((promptForAddress pb r).2 = none →
      IsIdLine (firstLine r) (promptForAddress pb r).1.Id ∧
      InInt32 (promptForAddress pb r).1.Id ∧
      ∀ n, IsIdLine (firstLine r) n → (promptForAddress pb r).1.Id = n) := by
  have hscan : ∀ (idl : List Char) (n : Int), firstLine r = idl → IsIdLine idl n →
      ∃ rd, Fscanf 0 r = if InInt32 n then (n, .ok rd) else (0, .error (rangeError n)) := by
    intro idl n hfl hn
    have hnl := isIdLine_no_newline idl n hn
    rcases exists_line_or_eof '\n' r with ⟨l, rest, hl, er⟩ | hno
    · have : l = idl := by rw [← hfl, er, firstLine_append_newline l rest hl]
      subst this
      exact ⟨rest, by rw [er]; exact (Fscanf_idLine 0 l n hn).1 rest⟩
    · have : r = idl := by rw [← hfl, firstLine_of_no_newline r hno]
      subst this
      exact ⟨[], (Fscanf_idLine 0 r n hn).2⟩
  have huniq : ∀ (i : Int) (rd : List Char), Fscanf 0 r = (i, .ok rd) →
      ∀ n, IsIdLine (firstLine r) n → InInt32 n ∧ i = n := by
    intro i rd hf n hn
    obtain ⟨rd', hs⟩ := hscan (firstLine r) n rfl hn
    rw [hf] at hs
    by_cases h32 : InInt32 n
    · rw [if_pos h32] at hs
      simp only [Prod.mk.injEq] at hs
      exact ⟨h32, hs.1⟩
    · rw [if_neg h32] at hs
      simp at hs
  constructor
  · intro n hn h32
    obtain ⟨rd', hs⟩ := hscan (firstLine r) n rfl hn
    rw [if_neg h32] at hs
    exact ⟨rangeError n, promptForAddress_of_scan_error pb r 0 _ hs⟩
  · intro hok
    rcases hf : Fscanf 0 r with ⟨i, e | rd⟩
    · rw [promptForAddress_of_scan_error pb r i e hf] at hok
      cases hok
    · have hId : (promptForAddress pb r).1.Id = i := by
        obtain ⟨more, hm⟩ : ∃ q : Person, (promptForAddress pb r).1 = q ∧ q.Id = i := by
          rw [promptForAddress_of_scan_ok pb r i rd hf]
          rcases h1 : ReadString '\n' rd with ⟨l1, _ | e, rd1⟩
          · simp only
            rcases h2 : ReadString '\n' rd1 with ⟨l2, _ | e, rd2⟩
            · simp only
              obtain ⟨more, hm⟩ := phoneLoop_extends pb (rd2.length + 1)
                { Id := i, Name := TrimSpace l1, Email := TrimSpace l2, Phones := [] } rd2
                (Nat.lt_succ_self _)
              exact ⟨_, rfl, by rw [hm]⟩
            · exact ⟨_, rfl, rfl⟩
          · exact ⟨_, rfl, rfl⟩
        rw [hm.1, hm.2]
      rw [hId]
      obtain ⟨h1, h2⟩ := Fscanf_ok_firstLine 0 r rd i hf
      exact ⟨h1, h2, fun n hn => (huniq i rd hf n hn).2⟩

theorem promptForAddress_id_exact_witness :
    (∃ e, promptForAddress tutorial
        "2147483648\nExample Name\nname@example.com\n\n".toList = (emptyPerson, some e)) ∧
    (∃ e, promptForAddress tutorial
        "-2147483649\nExample Name\nname@example.com\n\n".toList = (emptyPerson, some e)) ∧
    (promptForAddress tutorial "-2147483648\nExample Name\nname@example.com\n\n".toList).1.Id
      = -2147483648 ∧
    (promptForAddress tutorial testInput).1.Id = 12345 :=
  ⟨(promptForAddress_id_exact tutorial
      "2147483648\nExample Name\nname@example.com\n\n".toList).1 2147483648
      ⟨[], "2147483648".toList, [], rfl, by simp,
        ⟨[], "2147483648".toList, rfl, Or.inl rfl, by decide, by decide, by decide⟩, by simp⟩
      (by decide),
    (promptForAddress_id_exact tutorial
      "-2147483649\nExample Name\nname@example.com\n\n".toList).1 (-2147483649)
      ⟨[], "-2147483649".toList, [], rfl, by simp,
        ⟨['-'], "2147483649".toList, rfl, Or.inr (Or.inr rfl), by decide, by decide,
          by decide⟩, by simp⟩
      (by decide),
    ((promptForAddress_id_exact tutorial
      "-2147483648\nExample Name\nname@example.com\n\n".toList).2 (by decide)).2.2
      (-2147483648)
      ⟨[], "-2147483648".toList, [], rfl, by simp,
        ⟨['-'], "2147483648".toList, rfl, Or.inr (Or.inr rfl), by decide, by decide,
          by decide⟩, by simp⟩,
    ((promptForAddress_id_exact tutorial testInput).2 (by decide)).2.2 12345 isIdLine_12345⟩

/-! ## The claims about `writePerson` and `listPeople` -/

theorem test_writePerson_tutorial :
    TestWritePersonWritesPerson tutorial (fun _ => []) = true := by decide

set_option maxRecDepth 8000 in
theorem test_listPeople_tutorial :
    TestListPeopleWritesList tutorial (fun _ => []) = true := by decide

theorem linesText_nil : linesText [] = [] := rfl

theorem linesText_cons (l : List Char) (ls : List (List Char)) :
    linesText (l :: ls) = l ++ ['\n'] ++ linesText ls := by
  simp [linesText]

theorem linesText_append (ls ms : List (List Char)) :
    linesText (ls ++ ms) = linesText ls ++ linesText ms := by
  simp [linesText]

/-- Writing lines appends their text to what the writer holds. -/
theorem writeLines_eq : ∀ (ls : List (List Char)) (w : List Char),
    writeLines w ls = w ++ linesText ls
  | [], w => by simp [writeLines, linesText]
  | l :: ls, w => by
      have ih := writeLines_eq ls (w ++ l ++ ['\n'])
      unfold writeLines at ih ⊢
      rw [List.foldl_cons, ih, linesText_cons]
      simp

theorem writePerson_eq (pb : Tutorial) (other : Person_PhoneNumber → List (List Char))
    (w : List Char) (p : Person) :
    writePerson pb other w p = w ++ linesText (renderPerson pb other p) :=
  writeLines_eq _ w

theorem renderPhone_of_label (pb : Tutorial) (other : Person_PhoneNumber → List (List Char))
    (pn : Person_PhoneNumber) (label : List Char) (h : phoneLabel pb pn.Type_ = some label) :
    renderPhone pb other pn = ["  ".toList ++ label ++ ": ".toList ++ pn.Number] := by
  simp [renderPhone, h]

/-- A phone whose kind is one of the three constants has a label. -/
theorem phoneLabel_known (pb : Tutorial) (kind : Person_PhoneType)
    (h : kind = pb.Person_MOBILE ∨ kind = pb.Person_HOME ∨ kind = pb.Person_WORK) :
    phoneLabel pb kind = some "Mobile phone #".toList ∨
      phoneLabel pb kind = some "Home phone #".toList ∨
      phoneLabel pb kind = some "Work phone #".toList := by
  unfold phoneLabel
  by_cases h1 : kind = pb.Person_MOBILE
  · exact Or.inl (if_pos h1)
  · by_cases h2 : kind = pb.Person_HOME
    · exact Or.inr (Or.inl (by rw [if_neg h1, if_pos h2]))
    · have h3 : kind = pb.Person_WORK := by
        rcases h with h | h | h
        · exact absurd h h1
        · exact absurd h h2
        · exact h
      exact Or.inr (Or.inr (by rw [if_neg h1, if_neg h2, if_pos h3]))

theorem renderPhone_known (pb : Tutorial) (other : Person_PhoneNumber → List (List Char))
    (hdist : pb.Person_HOME ≠ pb.Person_MOBILE ∧ pb.Person_WORK ≠ pb.Person_MOBILE ∧
      pb.Person_HOME ≠ pb.Person_WORK)
    (pn : Person_PhoneNumber)
    (h : pn.Type_ = pb.Person_MOBILE ∨ pn.Type_ = pb.Person_HOME ∨
      pn.Type_ = pb.Person_WORK) :
    ∃ l, renderPhone pb other pn = [l] ∧ IsPhoneLine pb pn l := by
  obtain ⟨d1, d2, d3⟩ := hdist
  rcases h with h | h | h
  · refine ⟨_, renderPhone_of_label pb other pn "Mobile phone #".toList
      (by simp [phoneLabel, h]), fun _ => by simp, fun e => ?_, fun e => ?_⟩
    · exact absurd (e.symm.trans h) d1
    · exact absurd (e.symm.trans h) d2
  · refine ⟨_, renderPhone_of_label pb other pn "Home phone #".toList
      (by simp [phoneLabel, h, d1]), fun e => ?_, fun _ => by simp, fun e => ?_⟩
    · exact absurd (h.symm.trans e) d1
    · exact absurd (h.symm.trans e) d3
  · refine ⟨_, renderPhone_of_label pb other pn "Work phone #".toList
      (by simp [phoneLabel, h, d2, Ne.symm d3]), fun e => ?_, fun e => ?_, fun _ => by simp⟩
    · exact absurd (h.symm.trans e) d2
    · exact absurd (e.symm.trans h) d3

/-- The lines of phones of known kinds: one line for each, in order. -/
theorem renderPhones_known (pb : Tutorial) (other : Person_PhoneNumber → List (List Char))
    (hdist : pb.Person_HOME ≠ pb.Person_MOBILE ∧ pb.Person_WORK ≠ pb.Person_MOBILE ∧
      pb.Person_HOME ≠ pb.Person_WORK) :
    ∀ phones : List Person_PhoneNumber,
      (∀ pn ∈ phones, pn.Type_ = pb.Person_MOBILE ∨ pn.Type_ = pb.Person_HOME ∨
        pn.Type_ = pb.Person_WORK) →
      ∃ lines, List.Forall₂ (IsPhoneLine pb) phones lines ∧
        phones.flatMap (renderPhone pb other) = lines
  | [], _ => ⟨[], List.Forall₂.nil, rfl⟩
  | pn :: rest, h => by
      obtain ⟨l, hl, hline⟩ := renderPhone_known pb other hdist pn (h pn (by simp))
      obtain ⟨ls, hls, e⟩ := renderPhones_known pb other hdist rest
        (fun x hx => h x (by simp [hx]))
      exact ⟨l :: ls, List.Forall₂.cons hline hls, by simp [hl, e]⟩

/-- C11. For every person whose phones have kinds among `MOBILE`, `HOME` and
`WORK` (three distinct constants), `writePerson` emits, each followed by one
newline and in this order: the line `Person ID: {id}`, the line
`  Name: {name}`, the line `  E-mail address: {email}` when the email is not
empty, and one line `  {Label}: {number}` for each phone in phone order, with
the label of the phone's kind; it emits nothing else. -/
theorem writePerson_lines (pb : Tutorial) (other : Person_PhoneNumber → List (List Char))
    (p : Person)
    (hdist : pb.Person_HOME ≠ pb.Person_MOBILE ∧ pb.Person_WORK ≠ pb.Person_MOBILE ∧
      pb.Person_HOME ≠ pb.Person_WORK)
    (hkinds : ∀ pn ∈ p.Phones, pn.Type_ = pb.Person_MOBILE ∨ pn.Type_ = pb.Person_HOME ∨
      pn.Type_ = pb.Person_WORK) :
    ∃ lines, List.Forall₂ (IsPhoneLine pb) p.Phones lines ∧
      writePerson pb other [] p =
        "Person ID: ".toList ++ formatId p.Id ++ ['\n'] ++
        ("  Name: ".toList ++ p.Name ++ ['\n']) ++
        (if p.Email = [] then [] else "  E-mail address: ".toList ++ p.Email ++ ['\n']) ++
        linesText lines := by
  obtain ⟨lines, hl, e⟩ := renderPhones_known pb other hdist p.Phones hkinds
  refine ⟨lines, hl, ?_⟩
  rw [writePerson_eq, renderPerson, e, List.nil_append]
  by_cases he : p.Email = []
  · simp [he, linesText_append, linesText_cons, linesText_nil]
  · simp [he, linesText_append, linesText_cons, linesText_nil]

theorem writePerson_lines_witness :
    writePerson tutorial (fun _ => []) [] (testPerson tutorial) =
      ("Person ID: 1234\n  Name: John Doe\n  E-mail address: jdoe@example.com\n" ++
        "  Home phone #: 555-4321\n").toList ∧
    ∃ lines, List.Forall₂ (IsPhoneLine tutorial) (testPerson tutorial).Phones lines ∧
      writePerson tutorial (fun _ => []) [] (testPerson tutorial) =
        "Person ID: ".toList ++ formatId (testPerson tutorial).Id ++ ['\n'] ++
        ("  Name: ".toList ++ (testPerson tutorial).Name ++ ['\n']) ++
        (if (testPerson tutorial).Email = [] then []
          else "  E-mail address: ".toList ++ (testPerson tutorial).Email ++ ['\n']) ++
        linesText lines :=
  ⟨by decide,
    writePerson_lines tutorial (fun _ => []) (testPerson tutorial) (by decide) (by decide)⟩

/-- A line of a phone of known kind does not begin like the email line. -/
theorem renderPhone_not_email (pb : Tutorial) (other : Person_PhoneNumber → List (List Char))
    (pn : Person_PhoneNumber)
    (h : pn.Type_ = pb.Person_MOBILE ∨ pn.Type_ = pb.Person_HOME ∨
      pn.Type_ = pb.Person_WORK) :
    ∀ l ∈ renderPhone pb other pn, ¬ "  E-mail address: ".toList <+: l := by
  intro l hl
  rcases phoneLabel_known pb pn.Type_ h with e | e | e
  · rw [renderPhone_of_label pb other pn _ e] at hl
    rw [List.mem_singleton.mp hl]
    simp
  · rw [renderPhone_of_label pb other pn _ e] at hl
    rw [List.mem_singleton.mp hl]
    simp
  · rw [renderPhone_of_label pb other pn _ e] at hl
    rw [List.mem_singleton.mp hl]
    simp

theorem splitLines_exists_cons : ∀ s : List Char, ∃ l ls, splitLines s = l :: ls
  | [] => ⟨[], [], rfl⟩
  | c :: cs => by
      obtain ⟨l, ls, e⟩ := splitLines_exists_cons cs
      by_cases hc : c = '\n'
      · exact ⟨[], splitLines cs, by rw [splitLines, if_pos hc]⟩
      · exact ⟨c :: l, ls, by rw [splitLines, if_neg hc, e]⟩

/-- A text that begins with a line and its newline splits into that line and
the pieces of the rest. -/
theorem splitLines_line (rest : List Char) :
    ∀ l : List Char, '\n' ∉ l → splitLines (l ++ '\n' :: rest) = l :: splitLines rest
  | [], _ => by rw [List.nil_append, splitLines, if_pos rfl]
  | c :: cs, h => by
      have hc : c ≠ '\n' := fun e => h (by simp [e])
      have hcs : '\n' ∉ cs := fun e => h (by simp [e])
      rw [List.cons_append, splitLines, if_neg hc, splitLines_line rest cs hcs]

/-- The first piece of a text begins with whatever the text begins with up to
its first newline. -/
theorem splitLines_head_prefix (x : List Char) :
    ∀ pre : List Char, '\n' ∉ pre → ∃ l ls, splitLines (pre ++ x) = (pre ++ l) :: ls
  | [], _ => splitLines_exists_cons x
  | c :: cs, h => by
      have hc : c ≠ '\n' := fun e => h (by simp [e])
      have hcs : '\n' ∉ cs := fun e => h (by simp [e])
      obtain ⟨l, ls, e⟩ := splitLines_head_prefix x cs hcs
      exact ⟨l, ls, by rw [List.cons_append, splitLines, if_neg hc, e]; rfl⟩

/-- Lines without a newline inside are the pieces of their text, before an
empty last piece. -/
theorem splitLines_linesText :
    ∀ lines : List (List Char), (∀ l ∈ lines, '\n' ∉ l) →
      splitLines (linesText lines) = lines ++ [[]]
  | [], _ => rfl
  | l :: ls, h => by
      rw [linesText_cons, List.append_assoc, List.singleton_append,
        splitLines_line _ l (h l (by simp)),
        splitLines_linesText ls (fun x hx => h x (by simp [hx]))]
      rfl

theorem digitChar_ne_newline : ∀ k, k < 10 → Nat.digitChar k ≠ '\n' := by decide

theorem toDigitsCore_no_newline :
    ∀ (fuel n : Nat) (ds : List Char), '\n' ∉ ds → '\n' ∉ Nat.toDigitsCore 10 fuel n ds
  | 0, _, ds, h => by simpa [Nat.toDigitsCore] using h
  | fuel + 1, n, ds, h => by
      have hd : '\n' ∉ Nat.digitChar (n % 10) :: ds := by
        simp only [List.mem_cons, not_or]
        exact ⟨fun e => digitChar_ne_newline (n % 10) (Nat.mod_lt _ (by decide)) e.symm, h⟩
      rw [Nat.toDigitsCore]
      split
      · exact hd
      · exact toDigitsCore_no_newline fuel (n / 10) _ hd

/-- The text of an id holds no newline. -/
theorem formatId_no_newline (n : Int) : '\n' ∉ formatId n := by
  cases n with
  | ofNat m => exact toDigitsCore_no_newline _ _ [] (by simp)
  | negSucc m =>
      simp only [formatId, List.mem_cons, not_or]
      exact ⟨by decide, toDigitsCore_no_newline _ _ [] (by simp)⟩

/-- A line of a phone of known kind holds no newline when the number holds
none. -/
theorem renderPhone_no_newline (pb : Tutorial)
    (other : Person_PhoneNumber → List (List Char)) (pn : Person_PhoneNumber)
    (h : pn.Type_ = pb.Person_MOBILE ∨ pn.Type_ = pb.Person_HOME ∨
      pn.Type_ = pb.Person_WORK) (hn : '\n' ∉ pn.Number) :
    ∀ l ∈ renderPhone pb other pn, '\n' ∉ l := by
  intro l hl
  rcases phoneLabel_known pb pn.Type_ h with e | e | e
  · rw [renderPhone_of_label pb other pn _ e] at hl
    rw [List.mem_singleton.mp hl]
    simp [hn]
  · rw [renderPhone_of_label pb other pn _ e] at hl
    rw [List.mem_singleton.mp hl]
    simp [hn]
  · rw [renderPhone_of_label pb other pn _ e] at hl
    rw [List.mem_singleton.mp hl]
    simp [hn]

/-- Among the lines of `renderPerson`, for phones of known kinds, one begins
like the email line exactly when the email is not empty. -/
theorem renderPerson_email_line_iff (pb : Tutorial)
    (other : Person_PhoneNumber → List (List Char)) (p : Person)
    (hkinds : ∀ pn ∈ p.Phones, pn.Type_ = pb.Person_MOBILE ∨ pn.Type_ = pb.Person_HOME ∨
      pn.Type_ = pb.Person_WORK) :
    (∃ l ∈ renderPerson pb other p, "  E-mail address: ".toList <+: l) ↔ p.Email ≠ [] := by
  constructor
  · rintro ⟨l, hl, hpre⟩ he
    simp only [renderPerson, he, ne_eq, not_true_eq_false, if_false, List.append_nil,
      List.mem_append, List.mem_singleton, List.mem_flatMap] at hl
    rcases hl with (rfl | rfl) | ⟨pn, hpn, hl⟩
    · simp at hpre
    · simp at hpre
    · exact renderPhone_not_email pb other pn (hkinds pn hpn) l hl hpre
  · intro he
    refine ⟨"  E-mail address: ".toList ++ p.Email, ?_, List.prefix_append _ _⟩
    simp [renderPerson, he]

/-- C12, refuted as stated. The person `fakeEmailPerson` has an empty email,
and yet the output of `writePerson` for it holds the line
`  E-mail address: fake`, which comes from its name: the output is the very
text written for the name `X` and the email `fake`. -/
theorem fake_email_line_in_output :
    fakeEmailPerson.Email = [] ∧
    "  E-mail address: fake".toList ∈
      splitLines (writePerson tutorial (fun _ => []) [] fakeEmailPerson) ∧
    (∃ l ∈ splitLines (writePerson tutorial (fun _ => []) [] fakeEmailPerson),
      "  E-mail address: ".toList <+: l) ∧
    writePerson tutorial (fun _ => []) [] fakeEmailPerson =
      writePerson tutorial (fun _ => []) []
        { Id := 1, Name := "X".toList, Email := "fake".toList, Phones := [] } := by
  refine ⟨rfl, by decide, ⟨"  E-mail address: fake".toList, by decide, by decide⟩, by decide⟩

/-- C12, amended. For every person whose name and phone numbers hold no
newline and whose phones have kinds among `MOBILE`, `HOME` and `WORK`, the
output of `writePerson`, cut at its newlines, holds a line beginning
`  E-mail address: ` if and only if the email is not empty. The email shows in
that one place only: with an empty email the output is the id line, the name
line and the phone lines, and with any other email the same output with the
email line put after the name line. -/
theorem writePerson_email_line (pb : Tutorial)
    (other : Person_PhoneNumber → List (List Char)) (p : Person)
    (hkinds : ∀ pn ∈ p.Phones, pn.Type_ = pb.Person_MOBILE ∨ pn.Type_ = pb.Person_HOME ∨
      pn.Type_ = pb.Person_WORK)
    (hname : '\n' ∉ p.Name) (hnumbers : ∀ pn ∈ p.Phones, '\n' ∉ pn.Number) :
    ((∃ l ∈ splitLines (writePerson pb other [] p), "  E-mail address: ".toList <+: l) ↔
      p.Email ≠ []) ∧
    ∃ tail, ∀ e : List Char,
      writePerson pb other [] { p with Email := e } =
        "Person ID: ".toList ++ formatId p.Id ++ ['\n'] ++
        ("  Name: ".toList ++ p.Name ++ ['\n']) ++
        (if e = [] then [] else "  E-mail address: ".toList ++ e ++ ['\n']) ++ tail := by
  have hid : '\n' ∉ "Person ID: ".toList ++ formatId p.Id := by
    intro h
    rcases List.mem_append.mp h with h | h
    · revert h; decide
    · exact formatId_no_newline p.Id h
  have hnl : '\n' ∉ "  Name: ".toList ++ p.Name := by
    intro h
    rcases List.mem_append.mp h with h | h
    · revert h; decide
    · exact hname h
  constructor
  · constructor
    · rintro ⟨l, hl, hpre⟩ he
      have hlines : ∀ x ∈ renderPerson pb other p, '\n' ∉ x := by
        intro x hx
        simp only [renderPerson, he, ne_eq, not_true_eq_false, if_false, List.append_nil,
          List.mem_append, List.mem_singleton, List.mem_flatMap] at hx
        rcases hx with (rfl | rfl) | ⟨pn, hpn, hx⟩
        · exact hid
        · exact hnl
        · exact renderPhone_no_newline pb other pn (hkinds pn hpn) (hnumbers pn hpn) x hx
      rw [writePerson_eq, List.nil_append, splitLines_linesText _ hlines] at hl
      rcases List.mem_append.mp hl with hl | hl
      · exact (renderPerson_email_line_iff pb other p hkinds).mp ⟨l, hl, hpre⟩ he
      · rw [List.mem_singleton.mp hl] at hpre
        simp at hpre
    · intro he
      have hpre : '\n' ∉ "  E-mail address: ".toList := by decide
      obtain ⟨l, ls, e⟩ := splitLines_head_prefix
        (p.Email ++ '\n' :: linesText (p.Phones.flatMap (renderPhone pb other)))
        "  E-mail address: ".toList hpre
      have htext : writePerson pb other [] p =
          ("Person ID: ".toList ++ formatId p.Id) ++ '\n' ::
            (("  Name: ".toList ++ p.Name) ++ '\n' ::
              ("  E-mail address: ".toList ++
                (p.Email ++ '\n' :: linesText (p.Phones.flatMap (renderPhone pb other))))) := by
        rw [writePerson_eq, renderPerson, List.nil_append]
        simp [he, linesText_append, linesText_cons, linesText_nil]
      refine ⟨"  E-mail address: ".toList ++ l, ?_, List.prefix_append _ _⟩
      rw [htext, splitLines_line _ _ hid, splitLines_line _ _ hnl, e]
      simp
  · refine ⟨linesText (p.Phones.flatMap (renderPhone pb other)), fun e => ?_⟩
    rw [writePerson_eq, renderPerson, List.nil_append]
    by_cases he : e = []
    · simp [he, linesText_append, linesText_cons, linesText_nil]
    · simp [he, linesText_append, linesText_cons, linesText_nil]

theorem writePerson_email_line_witness :
    writePerson tutorial (fun _ => []) []
        { Id := 102, Name := "Jane Doe".toList, Email := [], Phones := [] } =
      "Person ID: 102\n  Name: Jane Doe\n".toList ∧
    ((∃ l ∈ splitLines (writePerson tutorial (fun _ => []) []
          { Id := 102, Name := "Jane Doe".toList, Email := [], Phones := [] }),
        "  E-mail address: ".toList <+: l) ↔ ([] : List Char) ≠ []) :=
  ⟨by decide,
    (writePerson_email_line tutorial (fun _ => [])
      { Id := 102, Name := "Jane Doe".toList, Email := [], Phones := [] } (by simp)
      (by decide) (by simp)).1⟩

/-- C13. For every address book, `listPeople` calls for nothing but the
output of `writePerson` on each person in order: its output is the
concatenation of those outputs, after what the writer held before. So the empty
book gives the empty output, and the output for two lists of people joined is
the output for the first followed by the output for the second. -/
theorem listPeople_concat (pb : Tutorial) (other : Person_PhoneNumber → List (List Char)) :
    (∀ (w : List Char) (book : AddressBook),
      listPeople pb other w book =
        w ++ (book.People.map (writePerson pb other [])).flatten) ∧
    (∀ (w : List Char) (book : AddressBook),
      listPeople pb other w book = book.People.foldl (writePerson pb other) w) ∧
    listPeople pb other [] { People := [] } = [] ∧
    ∀ ps qs : List Person,
      listPeople pb other [] { People := ps ++ qs } =
        listPeople pb other [] { People := ps } ++ listPeople pb other [] { People := qs } := by
  have h1 : ∀ (ps : List Person),
      linesText (ps.flatMap (renderPerson pb other)) =
        (ps.map (writePerson pb other [])).flatten := by
    intro ps
    induction ps with
    | nil => rfl
    | cons q qs ih =>
        rw [List.flatMap_cons, linesText_append, ih, List.map_cons, List.flatten_cons,
          writePerson_eq, List.nil_append]
  have h2 : ∀ (w : List Char) (book : AddressBook),
      listPeople pb other w book =
        w ++ (book.People.map (writePerson pb other [])).flatten := by
    intro w book
    rw [listPeople, writeLines_eq, renderBook, h1]
  refine ⟨h2, ?_, ?_, ?_⟩
  · intro w book
    rw [h2]
    generalize book.People = ps
    induction ps generalizing w with
    | nil => simp
    | cons q qs ih =>
        rw [List.foldl_cons, ← ih, List.map_cons, List.flatten_cons,
          writePerson_eq pb other w q, writePerson_eq pb other [] q, List.nil_append,
          List.append_assoc]
  · rw [h2]; rfl
  · intro ps qs
    rw [h2, h2, h2]
    simp

/-- C14. With constants on which the repository's test passes, a phone whose
type was never set is rendered by `writePerson` in the one line
`  Mobile phone #: {number}`, as a `MOBILE` phone with the same number is: the
two persons that differ only in this have the same output. -/
theorem writePerson_unset_type (pb : Tutorial)
    (other : Person_PhoneNumber → List (List Char)) (number : List Char)
    (htest : TestPromptForAddressReturnsAddress pb = true) :
    renderPhone pb other { Number := number, Type_ := 0 } =
      ["  Mobile phone #: ".toList ++ number] ∧
    renderPhone pb other { Number := number, Type_ := 0 } =
      renderPhone pb other { Number := number, Type_ := pb.Person_MOBILE } ∧
    ∀ (w : List Char) (p : Person) (ps1 ps2 : List Person_PhoneNumber),
      writePerson pb other w
          { p with Phones := ps1 ++ { Number := number, Type_ := 0 } :: ps2 } =
        writePerson pb other w
          { p with Phones := ps1 ++ { Number := number, Type_ := pb.Person_MOBILE } :: ps2 } ∧
      "  Mobile phone #: ".toList ++ number ∈
        renderPerson pb other
          { p with Phones := ps1 ++ { Number := number, Type_ := 0 } :: ps2 } := by
  have h0 : pb.Person_MOBILE = 0 := (test_passes_iff pb).mp htest
  have hline : renderPhone pb other { Number := number, Type_ := 0 } =
      ["  Mobile phone #: ".toList ++ number] := by
    rw [renderPhone_of_label pb other _ "Mobile phone #".toList (by simp [phoneLabel, h0])]
    simp
  refine ⟨hline, by rw [h0], fun w p ps1 ps2 => ⟨by rw [h0], ?_⟩⟩
  simp [renderPerson, hline]

theorem writePerson_unset_type_witness :
    renderPhone tutorial (fun _ => []) { Number := "555-777-0000".toList, Type_ := 0 } =
      ["  Mobile phone #: 555-777-0000".toList] ∧
    renderPhone tutorial (fun _ => []) { Number := "555-777-0000".toList, Type_ := 0 } =
      renderPhone tutorial (fun _ => [])
        { Number := "555-777-0000".toList, Type_ := tutorial.Person_MOBILE } :=
  have h := writePerson_unset_type tutorial (fun _ => []) "555-777-0000".toList
    test_passes_tutorial
  ⟨h.1, h.2.1⟩

end AddPerson
